import Mathlib

/-!
Verification of the reconciliation engine of an icon-sync tool
(`src/sync.js`, `src/utils.js`).  The engine compares a freshly fetched
remote inventory of icons against a persisted local inventory, classifies
every item into a change category, resolves naming conflicts and renames,
writes icon files, and persists the updated inventory.

Shallow embedding conventions:
* file paths are abstracted to the icon name key: a check of
  `outputDirectory + name + '.svg'` becomes a lookup of `name` in an
  `IconFS := String → Option String` map;
* the inventory JSON file is modelled as `Option (List StoredIcon)`
  (`none` = file absent), treating node's `JSON.stringify`/`JSON.parse`
  as a value-preserving external transport;
* thrown JS exceptions become `JsError` values: a failed network fetch
  (`sendRequest` throws on a non-ok response), the evaluation of the
  unbound identifier `data` in `extractIcons` (a `ReferenceError`), and
  `fs.writeFileSync` with `undefined` data (a `TypeError`);
* `this.warn(type, data)` prints a console advisory and touches nothing
  else (in particular it never appends to `this.eventsList`); the run
  trace of `warn` invocations is collected in `RunResult.warned`, while
  the `reports` field of the returned object is the untouched
  `this.eventsList`, i.e. `[]`.
-/

namespace IconsSync

/-- A remote icon as produced by `findComponentsRecursively`:
`\x7bname, nodeId, hash\x7d`. -/
structure RemoteIcon where
  nodeId : String
  name : String
  hash : String
deriving DecidableEq, Repr

/-- A persisted local inventory record, i.e. one element of the JSON array
stored in `_icons.json`: what remains of a working icon after
`delete icon.svg; delete icon.isRenamed` in `extractIcons`. -/
structure StoredIcon where
  nodeId : String
  name : String
  previousNames : List String
  hash : String
deriving DecidableEq, Repr

/-- The working representation of an icon during one run: the result of
`format` in `consolidateChanges`, plus the optional `svg` contents
attached later (absent field = `none`). -/
structure Icon where
  nodeId : String
  name : String
  previousNames : List String
  isRenamed : Bool
  hash : String
  svg : Option String
deriving DecidableEq, Repr

/-- The five change categories of the changelog object, in the key order of
its object literal (`unmodified, modified, added, restored, removed`). -/
inductive Category where
  | unmodified
  | modified
  | added
  | restored
  | removed
deriving DecidableEq, Repr

/-- The changelog computed by `consolidateChanges`. -/
structure Changelog where
  unmodified : List Icon
  modified : List Icon
  added : List Icon
  restored : List Icon
  removed : List Icon
deriving DecidableEq, Repr

/-- Asset files on disk, keyed by icon name (the `.svg` path suffix and the
output directory prefix are abstracted away). -/
def IconFS := String → Option String

/-- `fs.writeFileSync` on an icon path. -/
def updateFS (fs : IconFS) (name : String) (contents : String) : IconFS :=
  fun n => if n = name then some contents else fs n

/-- The state the sync run reads and writes: the icon files, the current
inventory file `_icons.json`, and the deprecated `_icons.js` file
(`none` = absent; `Except Unit _` models parseable vs damaged JSON). -/
structure SyncState where
  icons : IconFS
  db : Option (List StoredIcon)
  legacyDb : Option (Except Unit (List StoredIcon))

/-- `format` in `consolidateChanges`: normalizes a parsed inventory record
into the working representation (`isRenamed := false`, no `svg`). -/
def format (i : StoredIcon) : Icon :=
  { nodeId := i.nodeId, name := i.name, previousNames := i.previousNames,
    isRenamed := false, hash := i.hash, svg := none }

/-- `format` applied to a freshly fetched remote icon, which carries no
`previousNames` field (so `format` fills in `[]`). -/
def formatRemote (r : RemoteIcon) : Icon :=
  { nodeId := r.nodeId, name := r.name, previousNames := [],
    isRenamed := false, hash := r.hash, svg := none }

/-- The per-item body of the classification loop in `consolidateChanges`:
looks up the local record by `nodeId`, copies and possibly extends
`previousNames`, sets `isRenamed`, and picks the category from the hash
comparison and the on-disk existence of the file at the local name. -/
def classifyIcon (locals : List Icon) (fsExists : String → Bool) (r : Icon) :
    Icon × Category :=
  match locals.find? (fun l => l.nodeId = r.nodeId) with
  | none => (r, Category.added)
  | some l =>
    let prev :=
      if l.name = r.name then l.previousNames
      else if l.name ∈ l.previousNames then l.previousNames
      else l.previousNames ++ [l.name]
    let renamed : Bool := if l.name = r.name then false else true
    let r' := { r with previousNames := prev, isRenamed := renamed }
    if r.hash = l.hash then
      if fsExists l.name then (r', Category.unmodified) else (r', Category.restored)
    else
      if fsExists l.name then (r', Category.modified) else (r', Category.restored)

/-- The main branch of `consolidateChanges` (inventory file present and
`force !== true`): classify every remote icon, then compute `removed` as
the local records with no matching remote item whose file still exists. -/
def mainBranch (remote : List RemoteIcon) (stored : List StoredIcon)
    (fsExists : String → Bool) : Changelog :=
  let locals := stored.map format
  let remoteF := remote.map formatRemote
  let cls := remoteF.map (classifyIcon locals fsExists)
  { unmodified := cls.filterMap
      (fun p => if p.2 = Category.unmodified then some p.1 else none),
    modified := cls.filterMap
      (fun p => if p.2 = Category.modified then some p.1 else none),
    added := cls.filterMap
      (fun p => if p.2 = Category.added then some p.1 else none),
    restored := cls.filterMap
      (fun p => if p.2 = Category.restored then some p.1 else none),
    removed := (locals.filter
        (fun l => remoteF.all (fun r => decide (r.nodeId ≠ l.nodeId)))).filter
      (fun l => fsExists l.name) }

/-- `consolidateChanges(remoteIcons, force)`: when the inventory file exists
and `force !== true`, run the main classification; otherwise every remote
icon is `added`. -/
def consolidateChanges (remote : List RemoteIcon) (db : Option (List StoredIcon))
    (force : Bool) (fsExists : String → Bool) : Changelog :=
  match db, force with
  | some stored, false => mainBranch remote stored fsExists
  | _, _ =>
    { unmodified := [], modified := [], added := remote.map formatRemote,
      restored := [], removed := [] }

/-- The JS exceptions the run can raise:
* `fetchFailed` — `sendRequest` throws on a network/HTTP failure;
* `referenceErrorData` — `extractIcons` evaluates the unbound identifier
  `data` in the rename-collision branch (`data.previousNames.slice(-1)[0]`);
* `typeErrorWrite` — `fs.writeFileSync` called with `undefined` contents. -/
inductive JsError where
  | fetchFailed
  | referenceErrorData
  | typeErrorWrite
deriving DecidableEq, Repr

/-- The console advisories produced by `this.warn(type, data)`, carrying the
data object each call site passes. -/
inductive WarnEvent where
  | unableToSave (name : String)
  | renamedUnableToSave (presentName : String) (previousNames : List String)
  | renamedSavedBoth (presentName : String) (previousNames : List String)
  | renameReminder (previousNames : List String) (presentName : String)
deriving DecidableEq, Repr

/-- `Object.keys(changelog).find(key => changelog[key].find(nodeId) != undefined)`:
the first changelog key, in object-literal order, whose list contains an
icon with the given `nodeId`. -/
def typeOf (ch : Changelog) (nodeId : String) : Option Category :=
  if ch.unmodified.any (fun i => i.nodeId = nodeId) then some Category.unmodified
  else if ch.modified.any (fun i => i.nodeId = nodeId) then some Category.modified
  else if ch.added.any (fun i => i.nodeId = nodeId) then some Category.added
  else if ch.restored.any (fun i => i.nodeId = nodeId) then some Category.restored
  else if ch.removed.any (fun i => i.nodeId = nodeId) then some Category.removed
  else none

/-- `getContents(icon.name) != icon.svg` evaluated under a true
`exists(icon)` guard, with `onDisk` the file contents at `icon.name`:
an absent `svg` field (`undefined`) compares unequal to any string. -/
def svgDiffers (onDisk : String) (svg : Option String) : Bool :=
  match svg with
  | none => true
  | some s => decide (onDisk ≠ s)

/-- `await exists(icon) && await getContents(icon.name) != icon.svg`:
`exists` returns false under `forceReload`, and `getContents` is only
evaluated (via `&&` short-circuit) when the file exists. -/
def collision (forceReload : Bool) (fs : IconFS) (icon : Icon) : Bool :=
  if forceReload then false
  else
    match fs icon.name with
    | none => false
    | some onDisk => svgDiffers onDisk icon.svg

/-- `saveIcon(icon, saveUnderPreviousNames)`: writes `icon.svg` under
`icon.name` and, when requested, under every previous name.  With the
path abstraction, splitting a name on `/` and re-joining it reproduces the
same key.  `fs.writeFileSync` with an `undefined` body throws. -/
def saveIcon (fs : IconFS) (icon : Icon) (saveUnderPreviousNames : Bool) :
    Except JsError IconFS :=
  match icon.svg with
  | none => Except.error JsError.typeErrorWrite
  | some svg =>
    let namesList := icon.name ::
      (if saveUnderPreviousNames then icon.previousNames else [])
    Except.ok (namesList.foldl (fun f n => updateFS f n svg) fs)

/-- A `saveIcon` call followed by the advisories printed after it: on a
successful write the step yields `wsOk` and keeps the icon; if the write
throws, the step aborts having printed only `wsErr` (the advisories
already emitted before the call). -/
def saveStep (fs : IconFS) (icon : Icon) (saveUnderPreviousNames : Bool)
    (wsOk wsErr : List WarnEvent) :
    IconFS × List WarnEvent × Except JsError (Option Icon) :=
  match saveIcon fs icon saveUnderPreviousNames with
  | Except.ok fs' => (fs', wsOk, Except.ok (some icon))
  | Except.error e => (fs, wsErr, Except.error e)

/-- `eventData.previousNames` of the renamed branch:
`icon.previousNames.filter(v => v !== icon.name)`. -/
def eventPrevNames (icon : Icon) : List String :=
  icon.previousNames.filter (fun v => v ≠ icon.name)

/-- The icon after the rename-revert branch removed the current name from
`previousNames`. -/
def revertedIcon (icon : Icon) : Icon :=
  { icon with previousNames := eventPrevNames icon }

/-- The icon after the non-renamed branch pruned `previousNames` down to
the names that differ from the current one and still exist on disk. -/
def prunedIcon (fs : IconFS) (icon : Icon) : Icon :=
  { icon with previousNames :=
      icon.previousNames.filter (fun n => n ≠ icon.name ∧ (fs n).isSome) }

/-- The `rename-reminder` advisory of the non-renamed branch, printed when
the pruned `previousNames` is non-empty. -/
def reminderEvents (fs : IconFS) (icon : Icon) : List WarnEvent :=
  if ((prunedIcon fs icon).previousNames).length > 0 then
    [WarnEvent.renameReminder (prunedIcon fs icon).previousNames icon.name]
  else []

/-- One iteration of the `for(let iconID in iconsContents)` loop in
`extractIcons`: the `switch(type)` on the icon's changelog category,
returning the filesystem after the step, the advisories printed during the
step, and either the surviving (possibly mutated) icon — `none` when the
icon was removed from `iconsContents` via `delete` — or the exception that
aborted the step. -/
def resolveIcon (forceReload : Bool) (type : Option Category) (fs : IconFS)
    (icon : Icon) : IconFS × List WarnEvent × Except JsError (Option Icon) :=
  if type = some Category.added then
    -- case 'added': conflict with an existing differing file drops the icon
    if collision forceReload fs icon then
      (fs, [WarnEvent.unableToSave icon.name], Except.ok none)
    else
      saveStep fs icon false [] []
  else if icon.isRenamed then
    if icon.name ∈ icon.previousNames then
      -- the name reverted to a previous one: drop it from previousNames
      saveStep fs (revertedIcon icon) true
        [WarnEvent.renamedSavedBoth icon.name (eventPrevNames icon)] []
    else if collision forceReload fs icon then
      -- `icon.name = data.previousNames.slice(-1)[0]` evaluates the unbound
      -- identifier `data`: a ReferenceError is thrown before the name is
      -- reverted and before `warn('renamed-unable-to-save', ...)` runs
      (fs, [], Except.error JsError.referenceErrorData)
    else
      saveStep fs icon true
        [WarnEvent.renamedSavedBoth icon.name (eventPrevNames icon)] []
  else
    -- modified / restored / unmodified / removed, not renamed
    if type ≠ some Category.unmodified then
      saveStep fs (prunedIcon fs icon) true
        (reminderEvents fs icon) (reminderEvents fs icon)
    else (fs, reminderEvents fs icon, Except.ok (some (prunedIcon fs icon)))

/-- The outcome of running the resolution loop over `iconsContents`. -/
structure LoopRes where
  fs : IconFS
  warned : List WarnEvent
  outcome : Except JsError (List Icon)

/-- The resolution loop of `extractIcons`: each icon is resolved against
the filesystem as left by the previous steps; an exception aborts the loop
(and the run) with the writes and advisories made so far intact.  On
success the surviving icons (`iconsContents.filter(icon => icon != null)`)
are returned in order. -/
def resolveLoop (forceReload : Bool) (ch : Changelog) :
    List Icon → IconFS → LoopRes
  | [], fs => ⟨fs, [], Except.ok []⟩
  | icon :: rest, fs =>
    match resolveIcon forceReload (typeOf ch icon.nodeId) fs icon with
    | (fs1, w1, Except.error e) => ⟨fs1, w1, Except.error e⟩
    | (fs1, w1, Except.ok keep) =>
      let L := resolveLoop forceReload ch rest fs1
      ⟨L.fs, w1 ++ L.warned, L.outcome.map (fun s => keep.toList ++ s)⟩

/-- `performMigrations` (utils): if the deprecated `_icons.js` file exists
and `_icons.json` does not, parse it; on success write `_icons.json` and
delete the legacy file, on a parse failure log and continue unchanged. -/
def performMigrations (st : SyncState) : SyncState :=
  match st.legacyDb, st.db with
  | some (Except.ok icons), none =>
    { st with db := some icons, legacyDb := none }
  | _, _ => st

/-- `delete icon.svg; delete icon.isRenamed` before persisting. -/
def stripIcon (i : Icon) : StoredIcon :=
  { nodeId := i.nodeId, name := i.name, previousNames := i.previousNames,
    hash := i.hash }

/-- Loading `_icons.json` back: `JSON.parse(...).map(icon => format(icon))`
as `consolidateChanges` does on the next run. -/
def loadDb (stored : List StoredIcon) : List Icon :=
  stored.map format

/-- The contents attached to an unmodified/removed icon before resolution:
the loop over `[...icon.previousNames, icon.name]` keeps the contents of
the last name that exists on disk, leaving `svg` unset otherwise. -/
def loadLastExisting (fs : IconFS) (names : List String) : Option String :=
  names.foldl (fun acc n => match fs n with
    | some c => some c
    | none => acc) none

/-- An unmodified/removed icon with the bytes read from disk attached
(`icon.svg = fs.readFileSync(...)` for the last existing name). -/
@[reducible] def withLoadedSvg (fs : IconFS) (i : Icon) : Icon :=
  { i with svg := loadLastExisting fs (i.previousNames ++ [i.name]) }

/-- The `iconsContents` seed built from `changelog.unmodified` and
`changelog.removed` before downloading. -/
def initialContents (ch : Changelog) (fs : IconFS) : List Icon :=
  (ch.unmodified ++ ch.removed).map (withLoadedSvg fs)

/-- `downloadAndCleanIcons`: fetches every icon in the list one by one,
attaching the optimized bytes; a failed fetch throws and aborts the run.
`download` maps a `nodeId` to the fetched bytes (`none` = failure). -/
def downloadAndCleanIcons (download : String → Option String) :
    List Icon → Except JsError (List Icon)
  | [] => Except.ok []
  | icon :: rest =>
    match download icon.nodeId with
    | none => Except.error JsError.fetchFailed
    | some svg =>
      (downloadAndCleanIcons download rest).map
        (fun l => { icon with svg := some svg } :: l)

/-- The object returned by `extractIcons`: per-category filename lists, the
number of fetches, and `reports: this.eventsList` — which `warn` never
appends to, so it is always the initial `[]`. -/
structure RunOutput where
  unmodified : List String
  modified : List String
  added : List String
  restored : List String
  removed : List String
  totalFetches : Nat
  reports : List WarnEvent
deriving DecidableEq, Repr

/-- `changelog[key].map(icon => icon.name + '.svg')` for every key, plus the
fetch count and the (never-written) events list. -/
def mkOutput (ch : Changelog) (fetches : Nat) : RunOutput :=
  { unmodified := ch.unmodified.map (fun i => i.name ++ ".svg"),
    modified := ch.modified.map (fun i => i.name ++ ".svg"),
    added := ch.added.map (fun i => i.name ++ ".svg"),
    restored := ch.restored.map (fun i => i.name ++ ".svg"),
    removed := ch.removed.map (fun i => i.name ++ ".svg"),
    totalFetches := fetches,
    reports := [] }

/-- The result of one `extractIcons` run: the returned object (or the
exception that aborted the run), the filesystem/state at termination, and
the trace of console advisories printed by `this.warn`. -/
structure RunResult where
  outcome : Except JsError RunOutput
  state : SyncState
  warned : List WarnEvent

/-- The changelog computed by a run: migration first, then
`consolidateChanges` against the (possibly migrated) inventory and the
pre-run filesystem. -/
def runChangelog (remote : List RemoteIcon) (forceReload : Bool)
    (st0 : SyncState) : Changelog :=
  let st := performMigrations st0
  consolidateChanges remote st.db forceReload (fun n => (st.icons n).isSome)

/-- `downloadList = [...changelog.added, ...changelog.modified,
...changelog.restored]`. -/
def runDownloadList (remote : List RemoteIcon) (forceReload : Bool)
    (st0 : SyncState) : List Icon :=
  let ch := runChangelog remote forceReload st0
  ch.added ++ ch.modified ++ ch.restored

/-- The full `iconsContents` list entering the resolution loop: the
unmodified/removed icons with their on-disk bytes, followed by the
downloaded icons (or the fetch failure that aborted the run). -/
def runIconsContents (remote : List RemoteIcon)
    (download : String → Option String) (forceReload : Bool)
    (st0 : SyncState) : Except JsError (List Icon) :=
  (downloadAndCleanIcons download (runDownloadList remote forceReload st0)).map
    (fun dl =>
      initialContents (runChangelog remote forceReload st0)
        (performMigrations st0).icons ++ dl)

/-- `extractIcons(forceReload)`: migration, remote scan (the remote icon
list is an input), classification, selective download, resolution, and
persistence of the surviving records; `visualiseChangelog` — absent from
the sources, modelled from the spec as console-only CLI output — changes
nothing. -/
def extractIcons (remote : List RemoteIcon)
    (download : String → Option String) (forceReload : Bool)
    (st0 : SyncState) : RunResult :=
  let st := performMigrations st0
  let ch := runChangelog remote forceReload st0
  match runIconsContents remote download forceReload st0 with
  | Except.error e => ⟨Except.error e, st, []⟩
  | Except.ok icons =>
    let L := resolveLoop forceReload ch icons st.icons
    match L.outcome with
    | Except.error e => ⟨Except.error e, { st with icons := L.fs }, L.warned⟩
    | Except.ok survivors =>
      ⟨Except.ok (mkOutput ch (runDownloadList remote forceReload st0).length),
        { st with icons := L.fs, db := some (survivors.map stripIcon) },
        L.warned⟩

/-- The persisted-record invariant of the spec's data model:
`previousNames` never contains `name` and holds no duplicates. -/
def StoredInvariant (r : StoredIcon) : Prop :=
  r.name ∉ r.previousNames ∧ r.previousNames.Nodup

instance : DecidablePred StoredInvariant := fun _ =>
  inferInstanceAs (Decidable (_ ∧ _))

/-- Membership of a node id in the changelog list of one category. -/
def inCat (ch : Changelog) (c : Category) (nodeId : String) : Bool :=
  match c with
  | Category.unmodified => ch.unmodified.any (fun i => i.nodeId = nodeId)
  | Category.modified => ch.modified.any (fun i => i.nodeId = nodeId)
  | Category.added => ch.added.any (fun i => i.nodeId = nodeId)
  | Category.restored => ch.restored.any (fun i => i.nodeId = nodeId)
  | Category.removed => ch.removed.any (fun i => i.nodeId = nodeId)

/-- The category the classifier's hash/existence table assigns to a matched
remote item, given hash equality and on-disk existence at the local name. -/
def categoryFor (hashEqual : Bool) (fileExists : Bool) : Category :=
  if hashEqual then
    if fileExists then Category.unmodified else Category.restored
  else
    if fileExists then Category.modified else Category.restored

/-- The per-icon precondition under which one resolution step keeps the
persisted-record invariant: `previousNames` has no duplicates, and an icon
resolved through the `added` branch (which copies `previousNames` as-is)
does not carry its own name in the history. -/
def LoopInv (ch : Changelog) (i : Icon) : Prop :=
  i.previousNames.Nodup ∧
    (typeOf ch i.nodeId = some Category.added → i.name ∉ i.previousNames)

/-! Concrete scenario used by the rename-collision claims: local record
`N2` named `old`, remote renames it to `new` with a changed hash, and
`new.svg` already exists on disk with different bytes. -/

/-- Initial state of the rename-collision scenario. -/
def renameCollisionState : SyncState :=
  { icons := fun n =>
      if n = "old" then some "OLD"
      else if n = "new" then some "DISK" else none,
    db := some [⟨"N2", "old", [], "h1"⟩],
    legacyDb := none }

/-- Content fetcher of the rename-collision scenario. -/
def renameCollisionDownload : String → Option String :=
  fun n => if n = "N2" then some "FRESH" else none

/-- The rename-collision run. -/
def renameCollisionRun : RunResult :=
  extractIcons [⟨"N2", "new", "h2"⟩] renameCollisionDownload false
    renameCollisionState

/-! Concrete scenario used by the added-collision claims: new remote item
`X1` named `alpha`, while an unrelated `alpha.svg` with different bytes is
already on disk and the inventory file exists (empty). -/

/-- Initial state of the added-collision scenario. -/
def addedCollisionState : SyncState :=
  { icons := fun n => if n = "alpha" then some "OTHER" else none,
    db := some [],
    legacyDb := none }

/-- Content fetcher of the added-collision scenario. -/
def addedCollisionDownload : String → Option String :=
  fun n => if n = "X1" then some "FRESH" else none

/-- The added-collision run, normal mode. -/
def addedCollisionRun : RunResult :=
  extractIcons [⟨"X1", "alpha", "h"⟩] addedCollisionDownload false
    addedCollisionState

/-- The added-collision run invoked with `forceReload = true`. -/
def addedCollisionForceRun : RunResult :=
  extractIcons [⟨"X1", "alpha", "h"⟩] addedCollisionDownload true
    addedCollisionState

/-! Concrete scenario for the removed-record claim under `forceReload`:
local record `N1` (`logo`, file still on disk) has no remote match. -/

/-- Initial state of the force-drop scenario. -/
def forceDropState : SyncState :=
  { icons := fun n => if n = "logo" then some "L" else none,
    db := some [⟨"N1", "logo", [], "h"⟩],
    legacyDb := none }

/-- The force-drop run: empty remote set, `forceReload = true`. -/
def forceDropRun : RunResult :=
  extractIcons [] (fun _ => none) true forceDropState

/-- The list of one changelog category. -/
def catListOf (ch : Changelog) : Category → List Icon
  | Category.unmodified => ch.unmodified
  | Category.modified => ch.modified
  | Category.added => ch.added
  | Category.restored => ch.restored
  | Category.removed => ch.removed

/-! ## Theorems -/

theorem inCat_eq_any (ch : Changelog) (c : Category) (nid : String) :
    inCat ch c nid = (catListOf ch c).any (fun i => i.nodeId = nid) := by
  cases c <;> rfl

theorem classifyIcon_nodeId (locals : List Icon) (fsE : String → Bool) (r : Icon) :
    (classifyIcon locals fsE r).1.nodeId = r.nodeId := by
  unfold classifyIcon
  cases locals.find? (fun l => l.nodeId = r.nodeId) with
  | none => rfl
  | some l =>
    simp only
    split <;> split <;> rfl

theorem classifyIcon_snd {locals : List Icon} {fsE : String → Bool} {r l : Icon}
    (h : locals.find? (fun l' => l'.nodeId = r.nodeId) = some l) :
    (classifyIcon locals fsE r).2 =
      categoryFor (decide (r.hash = l.hash)) (fsE l.name) := by
  unfold classifyIcon categoryFor
  rw [h]
  by_cases hh : r.hash = l.hash <;> by_cases hf : fsE l.name <;> simp [hh, hf]

theorem categoryFor_ne_removed (a b : Bool) : categoryFor a b ≠ Category.removed := by
  unfold categoryFor
  cases a <;> cases b <;> simp

theorem mem_selectCat {cls : List (Icon × Category)} {c : Category} {i : Icon} :
    (i ∈ cls.filterMap fun p => if p.2 = c then some p.1 else none) ↔ (i, c) ∈ cls := by
  rw [List.mem_filterMap]
  constructor
  · rintro ⟨⟨a, c'⟩, hmem, h⟩
    by_cases hc : c' = c
    · subst hc
      have ha : a = i := by simpa using h
      subst ha
      exact hmem
    · exact absurd h (by simp [hc])
  · intro h
    exact ⟨(i, c), h, by simp⟩

theorem catListOf_mainBranch (remote : List RemoteIcon) (stored : List StoredIcon)
    (fsE : String → Bool) (c : Category) (hc : c ≠ Category.removed) :
    catListOf (mainBranch remote stored fsE) c =
      ((remote.map formatRemote).map (classifyIcon (stored.map format) fsE)).filterMap
        (fun p => if p.2 = c then some p.1 else none) := by
  cases c
  case removed => exact absurd rfl hc
  all_goals rfl

theorem mem_mainBranch_cat {remote : List RemoteIcon} {stored : List StoredIcon}
    {fsE : String → Bool} {c : Category} (hc : c ≠ Category.removed) {i : Icon} :
    i ∈ catListOf (mainBranch remote stored fsE) c ↔
      ∃ r ∈ remote,
        classifyIcon (stored.map format) fsE (formatRemote r) = (i, c) := by
  rw [catListOf_mainBranch _ _ _ _ hc, mem_selectCat]
  simp only [List.mem_map]
  constructor
  · rintro ⟨x, ⟨r, hr, rfl⟩, hx⟩
    exact ⟨r, hr, hx⟩
  · rintro ⟨r, hr, h⟩
    exact ⟨formatRemote r, ⟨r, hr, rfl⟩, h⟩

theorem mem_mainBranch_removed {remote : List RemoteIcon} {stored : List StoredIcon}
    {fsE : String → Bool} {i : Icon} :
    i ∈ (mainBranch remote stored fsE).removed ↔
      i ∈ stored.map format ∧ (∀ r ∈ remote, r.nodeId ≠ i.nodeId) ∧
        fsE i.name = true := by
  unfold mainBranch
  simp only [List.mem_filter, List.mem_map, List.all_eq_true, decide_eq_true_eq]
  constructor
  · rintro ⟨⟨⟨s, hs, rfl⟩, hall⟩, hf⟩
    refine ⟨⟨s, hs, rfl⟩, ?_, hf⟩
    intro r hr
    exact hall (formatRemote r) ⟨r, hr, rfl⟩
  · rintro ⟨⟨s, hs, rfl⟩, hne, hf⟩
    refine ⟨⟨⟨s, hs, rfl⟩, ?_⟩, hf⟩
    rintro x ⟨r, hr, rfl⟩
    exact hne r hr

/-- C3: for a remote item matched by a local record (inventory present,
`forceAll` false), the classifier assigns exactly the category of the
hash/existence table — unmodified / restored / modified / restored for
(equal, exists) / (equal, missing) / (differs, exists) / (differs, missing)
— and the item lands in that category alone. -/
theorem classifier_category_table
    (remote : List RemoteIcon) (stored : List StoredIcon) (fsE : String → Bool)
    (r : RemoteIcon) (l : Icon)
    (hnd : (remote.map RemoteIcon.nodeId).Nodup)
    (hr : r ∈ remote)
    (hl : (stored.map format).find? (fun l' => l'.nodeId = r.nodeId) = some l) :
    inCat (consolidateChanges remote (some stored) false fsE)
        (categoryFor (decide (r.hash = l.hash)) (fsE l.name)) r.nodeId = true ∧
      ∀ c' : Category, c' ≠ categoryFor (decide (r.hash = l.hash)) (fsE l.name) →
        inCat (consolidateChanges remote (some stored) false fsE) c' r.nodeId
          = false := by
  have hch : consolidateChanges remote (some stored) false fsE =
      mainBranch remote stored fsE := rfl
  have hfind : (stored.map format).find?
      (fun l' => l'.nodeId = (formatRemote r).nodeId) = some l := hl
  have hsnd : (classifyIcon (stored.map format) fsE (formatRemote r)).2 =
      categoryFor (decide (r.hash = l.hash)) (fsE l.name) := by
    rw [classifyIcon_snd hfind]
    rfl
  have hfst : (classifyIcon (stored.map format) fsE (formatRemote r)).1.nodeId
      = r.nodeId := classifyIcon_nodeId _ _ _
  constructor
  · rw [hch, inCat_eq_any, List.any_eq_true]
    refine ⟨(classifyIcon (stored.map format) fsE (formatRemote r)).1, ?_,
      by simp [hfst]⟩
    rw [mem_mainBranch_cat (categoryFor_ne_removed _ _)]
    exact ⟨r, hr, Prod.ext rfl hsnd⟩
  · intro c' hc'
    rw [hch, inCat_eq_any]
    by_contra hany
    rw [Bool.not_eq_false, List.any_eq_true] at hany
    obtain ⟨i, hi, hnid⟩ := hany
    rw [decide_eq_true_eq] at hnid
    by_cases hrm : c' = Category.removed
    · subst hrm
      rw [show catListOf (mainBranch remote stored fsE) Category.removed =
          (mainBranch remote stored fsE).removed from rfl,
        mem_mainBranch_removed] at hi
      exact hi.2.1 r hr (by rw [hnid])
    · rw [mem_mainBranch_cat hrm] at hi
      obtain ⟨r', hr', hcl⟩ := hi
      have hnid' : r'.nodeId = r.nodeId := by
        have h2 := classifyIcon_nodeId (stored.map format) fsE (formatRemote r')
        rw [hcl] at h2
        simpa [hnid] using h2.symm
      have hrr : r' = r :=
        List.inj_on_of_nodup_map hnd hr' hr hnid'
      subst hrr
      rw [hcl] at hsnd
      exact hc' (by simpa using hsnd)

/-- Witness for C3: in the rename-collision scenario's classification,
`N2` (hash changed, old file exists) lands in `modified` and in no other
category, e.g. not in `added`. -/
theorem classifier_category_table_witness :
    inCat (consolidateChanges [⟨"N2", "new", "h2"⟩]
        (some [⟨"N2", "old", [], "h1"⟩]) false (fun n => decide (n = "old")))
      Category.modified "N2" = true ∧
    inCat (consolidateChanges [⟨"N2", "new", "h2"⟩]
        (some [⟨"N2", "old", [], "h1"⟩]) false (fun n => decide (n = "old")))
      Category.added "N2" = false := by
  have h := classifier_category_table [⟨"N2", "new", "h2"⟩]
    [⟨"N2", "old", [], "h1"⟩] (fun n => decide (n = "old"))
    ⟨"N2", "new", "h2"⟩ (format ⟨"N2", "old", [], "h1"⟩)
    (by decide) (by decide) (by decide)
  exact ⟨h.1, h.2 Category.added (by decide)⟩

/-- C1: the rename-collision branch of `extractIcons` evaluates the unbound
identifier `data` (`icon.name = data.previousNames.slice(-1)[0]`), so on a
true naming collision for a renamed item the run throws a `ReferenceError`
and aborts: the name is never reverted, no `renamed-unable-to-save`
advisory is printed, the colliding file keeps its bytes, and the inventory
file is left as before. -/
theorem renamed_collision_throws_reference_error :
    renameCollisionRun.outcome = Except.error JsError.referenceErrorData ∧
    renameCollisionRun.warned = [] ∧
    renameCollisionRun.state.icons "new" = some "DISK" ∧
    renameCollisionRun.state.icons "old" = some "OLD" ∧
    renameCollisionRun.state.db = some [⟨"N2", "old", [], "h1"⟩] :=
  ⟨rfl, rfl, rfl, rfl, rfl⟩

/-- C2: `warn` only prints to the console and never appends to
`this.eventsList`, so even a run that produces an advisory (here
`unable-to-save` for `alpha.svg`) returns an empty `reports` list to the
caller. -/
theorem advisory_not_appended_to_reports :
    addedCollisionRun.warned = [WarnEvent.unableToSave "alpha"] ∧
    addedCollisionRun.outcome =
      Except.ok
        { unmodified := [], modified := [], added := ["alpha.svg"],
          restored := [], removed := [], totalFetches := 1, reports := [] } :=
  ⟨rfl, rfl⟩

/-- C4 counterexample: under `forceReload = true` an item classified
`added` whose name collides with an on-disk file holding different bytes
is NOT dropped: no `unable-to-save` advisory is printed, the file is
overwritten with the fetched bytes, and the item is persisted in the
inventory. -/
theorem added_collision_overwritten_under_force :
    inCat (runChangelog [⟨"X1", "alpha", "h"⟩] true addedCollisionState)
        Category.added "X1" = true ∧
    addedCollisionState.icons "alpha" = some "OTHER" ∧
    addedCollisionDownload "X1" = some "FRESH" ∧
    "OTHER" ≠ "FRESH" ∧
    addedCollisionForceRun.warned = [] ∧
    addedCollisionForceRun.state.icons "alpha" = some "FRESH" ∧
    addedCollisionForceRun.state.db = some [⟨"X1", "alpha", [], "h"⟩] :=
  ⟨rfl, rfl, rfl, by decide, rfl, rfl, rfl⟩

/-- C7 counterexample: under `forceReload = true` a local record with no
remote match whose file still exists on disk neither appears in `removed`
(the force branch returns an empty `removed`) nor survives into the
persisted inventory, which is rewritten to the remote set only. -/
theorem removed_record_dropped_under_force :
    forceDropState.icons "logo" = some "L" ∧
    (runChangelog [] true forceDropState).removed = [] ∧
    forceDropRun.outcome.isOk = true ∧
    forceDropRun.state.db = some [] :=
  ⟨rfl, rfl, rfl, rfl⟩


theorem perm_all_eq {α} {l1 l2 : List α} (h : l1.Perm l2) (p : α → Bool) :
    l1.all p = l2.all p := by
  apply Bool.eq_iff_iff.mpr
  simp only [List.all_eq_true]
  constructor
  · intro ha x hx
    exact ha x (h.mem_iff.mpr hx)
  · intro ha x hx
    exact ha x (h.mem_iff.mp hx)

theorem mainBranch_removed_perm_eq {remote1 remote2 : List RemoteIcon}
    {stored : List StoredIcon} {fsE : String → Bool}
    (hp : remote1.Perm remote2) :
    (mainBranch remote1 stored fsE).removed =
      (mainBranch remote2 stored fsE).removed := by
  unfold mainBranch
  simp only
  have hinner : (stored.map format).filter
      (fun l => (remote1.map formatRemote).all fun r => decide (r.nodeId ≠ l.nodeId)) =
      (stored.map format).filter
        (fun l => (remote2.map formatRemote).all fun r => decide (r.nodeId ≠ l.nodeId)) := by
    apply List.filter_congr
    intro l _
    exact perm_all_eq (hp.map formatRemote) _
  rw [hinner]

/-- C8: classification is invariant under any permutation of the
remote-item list — each category's list is a permutation of the original
one, and `removed` is literally unchanged. -/
theorem classification_permutation_invariant
    (remote1 remote2 : List RemoteIcon) (db : Option (List StoredIcon))
    (force : Bool) (fsE : String → Bool) (hp : remote1.Perm remote2) :
    (∀ c : Category,
      (catListOf (consolidateChanges remote1 db force fsE) c).Perm
        (catListOf (consolidateChanges remote2 db force fsE) c)) ∧
    (consolidateChanges remote1 db force fsE).removed =
      (consolidateChanges remote2 db force fsE).removed := by
  match db, force with
  | some stored, false =>
    have hcls : ((remote1.map formatRemote).map
          (classifyIcon (stored.map format) fsE)).Perm
        ((remote2.map formatRemote).map (classifyIcon (stored.map format) fsE)) :=
      (hp.map formatRemote).map _
    have hrem := @mainBranch_removed_perm_eq remote1 remote2 stored fsE hp
    refine ⟨?_, hrem⟩
    intro c
    by_cases hc : c = Category.removed
    · subst hc
      rw [show ∀ ch : Changelog, catListOf ch Category.removed = ch.removed
        from fun _ => rfl]
      exact hrem ▸ List.Perm.refl _
    · rw [show consolidateChanges remote1 (some stored) false fsE =
          mainBranch remote1 stored fsE from rfl,
        show consolidateChanges remote2 (some stored) false fsE =
          mainBranch remote2 stored fsE from rfl,
        catListOf_mainBranch _ _ _ _ hc, catListOf_mainBranch _ _ _ _ hc]
      exact hcls.filterMap _
  | some stored, true =>
    refine ⟨?_, rfl⟩
    intro c
    cases c <;> simp only [consolidateChanges, catListOf] <;>
      first
        | exact hp.map formatRemote
        | exact List.Perm.refl _
  | none, force =>
    refine ⟨?_, rfl⟩
    intro c
    cases c <;> simp only [consolidateChanges, catListOf] <;>
      first
        | exact hp.map formatRemote
        | exact List.Perm.refl _

theorem saveStep_svg_none {fs : IconFS} {icon : Icon} {u : Bool}
    {wsOk wsErr : List WarnEvent} (h : icon.svg = none) :
    saveStep fs icon u wsOk wsErr = (fs, wsErr, Except.error JsError.typeErrorWrite) := by
  unfold saveStep saveIcon
  rw [h]

theorem saveStep_svg_some {fs : IconFS} {icon : Icon} {u : Bool}
    {wsOk wsErr : List WarnEvent} {s : String} (h : icon.svg = some s) :
    saveStep fs icon u wsOk wsErr =
      ((icon.name :: (if u then icon.previousNames else [])).foldl
          (fun f n => updateFS f n s) fs,
        wsOk, Except.ok (some icon)) := by
  unfold saveStep saveIcon
  rw [h]

theorem saveStep_eq_ok {fs : IconFS} {icon : Icon} {u : Bool}
    {wsOk wsErr : List WarnEvent} {fs' : IconFS} {w : List WarnEvent}
    {keep : Option Icon}
    (h : saveStep fs icon u wsOk wsErr = (fs', w, Except.ok keep)) :
    keep = some icon ∧ w = wsOk := by
  unfold saveStep at h
  split at h <;> simp_all

theorem resolveIcon_added_col {fr : Bool} {t : Option Category} {fs : IconFS}
    {i : Icon} (ht : t = some Category.added) (hc : collision fr fs i = true) :
    resolveIcon fr t fs i =
      (fs, [WarnEvent.unableToSave i.name], Except.ok none) := by
  unfold resolveIcon
  rw [if_pos ht, if_pos hc]

theorem resolveIcon_added_noncol {fr : Bool} {t : Option Category} {fs : IconFS}
    {i : Icon} (ht : t = some Category.added) (hc : collision fr fs i = false) :
    resolveIcon fr t fs i = saveStep fs i false [] [] := by
  unfold resolveIcon
  rw [if_pos ht, if_neg (by simp [hc])]

theorem resolveIcon_revert {fr : Bool} {t : Option Category} {fs : IconFS}
    {i : Icon} (ht : ¬t = some Category.added) (hr : i.isRenamed = true)
    (hm : i.name ∈ i.previousNames) :
    resolveIcon fr t fs i = saveStep fs (revertedIcon i) true
      [WarnEvent.renamedSavedBoth i.name (eventPrevNames i)] [] := by
  unfold resolveIcon
  rw [if_neg ht, if_pos hr, if_pos hm]

theorem resolveIcon_renamed_col {fr : Bool} {t : Option Category} {fs : IconFS}
    {i : Icon} (ht : ¬t = some Category.added) (hr : i.isRenamed = true)
    (hm : i.name ∉ i.previousNames) (hc : collision fr fs i = true) :
    resolveIcon fr t fs i = (fs, [], Except.error JsError.referenceErrorData) := by
  unfold resolveIcon
  rw [if_neg ht, if_pos hr, if_neg hm, if_pos hc]

theorem resolveIcon_renamed_noncol {fr : Bool} {t : Option Category} {fs : IconFS}
    {i : Icon} (ht : ¬t = some Category.added) (hr : i.isRenamed = true)
    (hm : i.name ∉ i.previousNames) (hc : collision fr fs i = false) :
    resolveIcon fr t fs i = saveStep fs i true
      [WarnEvent.renamedSavedBoth i.name (eventPrevNames i)] [] := by
  unfold resolveIcon
  rw [if_neg ht, if_pos hr, if_neg hm, if_neg (by simp [hc])]

theorem resolveIcon_default_save {fr : Bool} {t : Option Category} {fs : IconFS}
    {i : Icon} (ht : ¬t = some Category.added) (hr : i.isRenamed = false)
    (hu : t ≠ some Category.unmodified) :
    resolveIcon fr t fs i = saveStep fs (prunedIcon fs i) true
      (reminderEvents fs i) (reminderEvents fs i) := by
  unfold resolveIcon
  rw [if_neg ht, if_neg (by simp [hr]), if_pos hu]

theorem resolveIcon_default_unmod {fr : Bool} {t : Option Category} {fs : IconFS}
    {i : Icon} (hr : i.isRenamed = false) (hu : t = some Category.unmodified) :
    resolveIcon fr t fs i =
      (fs, reminderEvents fs i, Except.ok (some (prunedIcon fs i))) := by
  unfold resolveIcon
  rw [if_neg (by simp [hu]), if_neg (by simp [hr]), if_neg (by simp [hu])]


theorem resolveIcon_ok_none {fr : Bool} {t : Option Category} {fs : IconFS}
    {i : Icon} {fs' : IconFS} {w : List WarnEvent}
    (h : resolveIcon fr t fs i = (fs', w, Except.ok none)) :
    t = some Category.added ∧ collision fr fs i = true := by
  by_cases ht : t = some Category.added
  · by_cases hc : collision fr fs i
    · exact ⟨ht, hc⟩
    · rw [resolveIcon_added_noncol ht (by simpa using hc)] at h
      obtain ⟨hk, -⟩ := saveStep_eq_ok h
      simp at hk
  · by_cases hr : i.isRenamed
    · by_cases hm : i.name ∈ i.previousNames
      · rw [resolveIcon_revert ht hr hm] at h
        obtain ⟨hk, -⟩ := saveStep_eq_ok h
        simp at hk
      · by_cases hc : collision fr fs i
        · rw [resolveIcon_renamed_col ht hr hm hc] at h
          simp at h
        · rw [resolveIcon_renamed_noncol ht hr hm (by simpa using hc)] at h
          obtain ⟨hk, -⟩ := saveStep_eq_ok h
          simp at hk
    · by_cases hu : t = some Category.unmodified
      · rw [resolveIcon_default_unmod (by simpa using hr) hu] at h
        simp only [Prod.mk.injEq, Except.ok.injEq] at h
        obtain ⟨-, -, hk⟩ := h
        simp at hk
      · rw [resolveIcon_default_save ht (by simpa using hr) hu] at h
        obtain ⟨hk, -⟩ := saveStep_eq_ok h
        simp at hk

theorem resolveIcon_ok_some {fr : Bool} {t : Option Category} {fs : IconFS}
    {i : Icon} {fs' : IconFS} {w : List WarnEvent} {k : Icon}
    (h : resolveIcon fr t fs i = (fs', w, Except.ok (some k))) :
    k.nodeId = i.nodeId ∧ k.name = i.name := by
  by_cases ht : t = some Category.added
  · by_cases hc : collision fr fs i
    · rw [resolveIcon_added_col ht hc] at h
      simp at h
    · rw [resolveIcon_added_noncol ht (by simpa using hc)] at h
      obtain ⟨hk, -⟩ := saveStep_eq_ok h
      obtain rfl := Option.some.inj hk
      exact ⟨rfl, rfl⟩
  · by_cases hr : i.isRenamed
    · by_cases hm : i.name ∈ i.previousNames
      · rw [resolveIcon_revert ht hr hm] at h
        obtain ⟨hk, -⟩ := saveStep_eq_ok h
        obtain rfl := Option.some.inj hk
        exact ⟨rfl, rfl⟩
      · by_cases hc : collision fr fs i
        · rw [resolveIcon_renamed_col ht hr hm hc] at h
          simp at h
        · rw [resolveIcon_renamed_noncol ht hr hm (by simpa using hc)] at h
          obtain ⟨hk, -⟩ := saveStep_eq_ok h
          obtain rfl := Option.some.inj hk
          exact ⟨rfl, rfl⟩
    · by_cases hu : t = some Category.unmodified
      · rw [resolveIcon_default_unmod (by simpa using hr) hu] at h
        simp only [Prod.mk.injEq, Except.ok.injEq] at h
        obtain ⟨-, -, hk⟩ := h
        obtain rfl := Option.some.inj hk.symm
        exact ⟨rfl, rfl⟩
      · rw [resolveIcon_default_save ht (by simpa using hr) hu] at h
        obtain ⟨hk, -⟩ := saveStep_eq_ok h
        obtain rfl := Option.some.inj hk
        exact ⟨rfl, rfl⟩

theorem resolveIcon_keep_inv {fr : Bool} {t : Option Category} {fs : IconFS}
    {i : Icon} {fs' : IconFS} {w : List WarnEvent} {k : Icon}
    (hnd : i.previousNames.Nodup)
    (hadded : t = some Category.added → i.name ∉ i.previousNames)
    (h : resolveIcon fr t fs i = (fs', w, Except.ok (some k))) :
    k.name ∉ k.previousNames ∧ k.previousNames.Nodup := by
  by_cases ht : t = some Category.added
  · by_cases hc : collision fr fs i
    · rw [resolveIcon_added_col ht hc] at h
      simp at h
    · rw [resolveIcon_added_noncol ht (by simpa using hc)] at h
      obtain ⟨hk, -⟩ := saveStep_eq_ok h
      obtain rfl := Option.some.inj hk
      exact ⟨hadded ht, hnd⟩
  · by_cases hr : i.isRenamed
    · by_cases hm : i.name ∈ i.previousNames
      · rw [resolveIcon_revert ht hr hm] at h
        obtain ⟨hk, -⟩ := saveStep_eq_ok h
        obtain rfl := Option.some.inj hk
        constructor
        · simp [revertedIcon, eventPrevNames, List.mem_filter]
        · exact hnd.filter _
      · by_cases hc : collision fr fs i
        · rw [resolveIcon_renamed_col ht hr hm hc] at h
          simp at h
        · rw [resolveIcon_renamed_noncol ht hr hm (by simpa using hc)] at h
          obtain ⟨hk, -⟩ := saveStep_eq_ok h
          obtain rfl := Option.some.inj hk
          exact ⟨hm, hnd⟩
    · by_cases hu : t = some Category.unmodified
      · rw [resolveIcon_default_unmod (by simpa using hr) hu] at h
        simp only [Prod.mk.injEq, Except.ok.injEq] at h
        obtain ⟨-, -, hk⟩ := h
        obtain rfl := Option.some.inj hk.symm
        constructor
        · simp [prunedIcon, List.mem_filter]
        · exact hnd.filter _
      · rw [resolveIcon_default_save ht (by simpa using hr) hu] at h
        obtain ⟨hk, -⟩ := saveStep_eq_ok h
        obtain rfl := Option.some.inj hk
        constructor
        · simp [prunedIcon, List.mem_filter]
        · exact hnd.filter _


theorem resolveLoop_nil (fr : Bool) (ch : Changelog) (fs : IconFS) :
    resolveLoop fr ch [] fs = ⟨fs, [], Except.ok []⟩ := rfl

theorem resolveLoop_cons (fr : Bool) (ch : Changelog) (i : Icon)
    (rest : List Icon) (fs : IconFS) :
    resolveLoop fr ch (i :: rest) fs =
      match resolveIcon fr (typeOf ch i.nodeId) fs i with
      | (fs1, w1, Except.error e) => ⟨fs1, w1, Except.error e⟩
      | (fs1, w1, Except.ok keep) =>
        let L := resolveLoop fr ch rest fs1
        ⟨L.fs, w1 ++ L.warned, L.outcome.map (fun s => keep.toList ++ s)⟩ := rfl

theorem except_map_eq_ok {α β ε : Type} {f : α → β} {x : Except ε α} {b : β}
    (h : x.map f = Except.ok b) : ∃ a, x = Except.ok a ∧ b = f a := by
  cases x with
  | error e => simp [Except.map] at h
  | ok a =>
    have h2 : f a = b := by simpa [Except.map] using h
    exact ⟨a, rfl, h2.symm⟩

theorem resolveLoop_ok_sublist {fr : Bool} {ch : Changelog} :
    ∀ {icons : List Icon} {fs : IconFS} {s : List Icon},
      (resolveLoop fr ch icons fs).outcome = Except.ok s →
      List.Sublist (s.map Icon.nodeId) (icons.map Icon.nodeId) := by
  intro icons
  induction icons with
  | nil =>
    intro fs s h
    rw [resolveLoop_nil] at h
    obtain rfl : ([] : List Icon) = s := by simpa using h
    simp
  | cons i rest ih =>
    intro fs s h
    rw [resolveLoop_cons] at h
    rcases hE : resolveIcon fr (typeOf ch i.nodeId) fs i with ⟨fs1, w1, r1⟩
    rw [hE] at h
    cases r1 with
    | error e => simp at h
    | ok keep =>
      dsimp at h
      obtain ⟨s2, hs2, rfl⟩ := except_map_eq_ok h
      cases keep with
      | none =>
        simp only [Option.toList, List.nil_append, List.map_cons]
        exact (ih hs2).trans (List.sublist_cons_self _ _)
      | some k =>
        have hk := (resolveIcon_ok_some hE).1
        simp only [Option.toList, List.singleton_append, List.map_cons, hk]
        exact (ih hs2).cons₂ i.nodeId

theorem resolveLoop_ok_mem {fr : Bool} {ch : Changelog} :
    ∀ {icons : List Icon} {fs : IconFS} {s : List Icon},
      (resolveLoop fr ch icons fs).outcome = Except.ok s →
      ∀ i ∈ icons, ¬typeOf ch i.nodeId = some Category.added →
        i.nodeId ∈ s.map Icon.nodeId := by
  intro icons
  induction icons with
  | nil =>
    intro fs s h i hi
    exact absurd hi (List.not_mem_nil i)
  | cons j rest ih =>
    intro fs s h i hi hni
    rw [resolveLoop_cons] at h
    rcases hE : resolveIcon fr (typeOf ch j.nodeId) fs j with ⟨fs1, w1, r1⟩
    rw [hE] at h
    cases r1 with
    | error e => simp at h
    | ok keep =>
      dsimp at h
      obtain ⟨s2, hs2, rfl⟩ := except_map_eq_ok h
      rcases List.mem_cons.mp hi with rfl | hi'
      · cases keep with
        | none =>
          obtain ⟨hadd, -⟩ := resolveIcon_ok_none hE
          exact absurd hadd hni
        | some k =>
          have hk := (resolveIcon_ok_some hE).1
          simp [hk]
      · cases keep with
        | none =>
          simpa using ih hs2 i hi' hni
        | some k =>
          have := ih hs2 i hi' hni
          simp only [Option.toList, List.singleton_append, List.map_cons,
            List.mem_cons]
          exact Or.inr (by simpa using this)

theorem resolveLoop_keep_inv {fr : Bool} {ch : Changelog} :
    ∀ {icons : List Icon} {fs : IconFS} {s : List Icon},
      (resolveLoop fr ch icons fs).outcome = Except.ok s →
      (∀ i ∈ icons, i.previousNames.Nodup ∧
        (typeOf ch i.nodeId = some Category.added → i.name ∉ i.previousNames)) →
      ∀ k ∈ s, k.name ∉ k.previousNames ∧ k.previousNames.Nodup := by
  intro icons
  induction icons with
  | nil =>
    intro fs s h hInv k hk
    rw [resolveLoop_nil] at h
    obtain rfl : ([] : List Icon) = s := by simpa using h
    exact absurd hk (List.not_mem_nil k)
  | cons j rest ih =>
    intro fs s h hInv k hk
    rw [resolveLoop_cons] at h
    rcases hE : resolveIcon fr (typeOf ch j.nodeId) fs j with ⟨fs1, w1, r1⟩
    rw [hE] at h
    cases r1 with
    | error e => simp at h
    | ok keep =>
      dsimp at h
      obtain ⟨s2, hs2, rfl⟩ := except_map_eq_ok h
      have hInvRest : ∀ i ∈ rest, i.previousNames.Nodup ∧
          (typeOf ch i.nodeId = some Category.added → i.name ∉ i.previousNames) :=
        fun i hi => hInv i (List.mem_cons_of_mem j hi)
      cases keep with
      | none =>
        exact ih hs2 hInvRest k (by simpa using hk)
      | some k0 =>
        rcases List.mem_cons.mp (by simpa using hk) with rfl | hk'
        · obtain ⟨hnd, hadd⟩ := hInv j (List.mem_cons_self j rest)
          exact resolveIcon_keep_inv hnd hadd hE
        · exact ih hs2 hInvRest k hk'

theorem except_map_map {α β γ ε : Type} (f : α → β) (g : β → γ)
    (x : Except ε α) : (x.map f).map g = x.map (fun a => g (f a)) := by
  cases x <;> rfl

theorem resolveLoop_append_ok {fr : Bool} {ch : Changelog} :
    ∀ (xs ys : List Icon) (fs : IconFS) (s1 : List Icon),
      (resolveLoop fr ch xs fs).outcome = Except.ok s1 →
      resolveLoop fr ch (xs ++ ys) fs =
        ⟨(resolveLoop fr ch ys (resolveLoop fr ch xs fs).fs).fs,
          (resolveLoop fr ch xs fs).warned ++
            (resolveLoop fr ch ys (resolveLoop fr ch xs fs).fs).warned,
          (resolveLoop fr ch ys (resolveLoop fr ch xs fs).fs).outcome.map
            (fun s2 => s1 ++ s2)⟩ := by
  intro xs
  induction xs with
  | nil =>
    intro ys fs s1 h
    rw [resolveLoop_nil] at h
    have hs1 : ([] : List Icon) = s1 := Except.ok.inj h
    subst hs1
    rw [List.nil_append, resolveLoop_nil]
    dsimp
    rcases hL : resolveLoop fr ch ys fs with ⟨bfs, bw, bo⟩
    dsimp
    cases bo with
    | error e => rfl
    | ok s => simp [Except.map]
  | cons j rest ih =>
    intro ys fs s1 h
    rw [resolveLoop_cons] at h
    rw [List.cons_append, resolveLoop_cons, resolveLoop_cons]
    rcases hE : resolveIcon fr (typeOf ch j.nodeId) fs j with ⟨fs1, w1, r1⟩
    rw [hE] at h
    cases r1 with
    | error e =>
      dsimp at h
      exact absurd h (by simp)
    | ok keep =>
      dsimp at h ⊢
      obtain ⟨s1x, hs1x, rfl⟩ := except_map_eq_ok h
      rw [ih ys fs1 s1x hs1x]
      dsimp
      rw [except_map_map]
      congr 1
      · rw [List.append_assoc]
      congr 1
      funext s2
      rw [List.append_assoc]

theorem downloadAndCleanIcons_nil (download : String → Option String) :
    downloadAndCleanIcons download [] = Except.ok [] := rfl

theorem downloadAndCleanIcons_cons (download : String → Option String)
    (j : Icon) (rest : List Icon) :
    downloadAndCleanIcons download (j :: rest) =
      match download j.nodeId with
      | none => Except.error JsError.fetchFailed
      | some svg =>
        (downloadAndCleanIcons download rest).map
          (fun l => { j with svg := some svg } :: l) := rfl

theorem downloadAndCleanIcons_fail {download : String → Option String} :
    ∀ {icons : List Icon}, (∃ i ∈ icons, download i.nodeId = none) →
      downloadAndCleanIcons download icons = Except.error JsError.fetchFailed := by
  intro icons
  induction icons with
  | nil =>
    rintro ⟨i, hi, -⟩
    exact absurd hi (List.not_mem_nil i)
  | cons j rest ih =>
    rintro ⟨i, hi, hd⟩
    rw [downloadAndCleanIcons_cons]
    cases hj : download j.nodeId with
    | none => rfl
    | some s =>
      rcases List.mem_cons.mp hi with rfl | hi'
      · rw [hj] at hd
        exact absurd hd (by simp)
      · rw [ih ⟨i, hi', hd⟩]
        rfl

theorem downloadAndCleanIcons_ok_mem {download : String → Option String} :
    ∀ {icons dl : List Icon},
      downloadAndCleanIcons download icons = Except.ok dl →
      ∀ j ∈ dl, ∃ i ∈ icons, ∃ s, download i.nodeId = some s ∧
        j = { i with svg := some s } := by
  intro icons
  induction icons with
  | nil =>
    intro dl h j hj
    rw [downloadAndCleanIcons_nil] at h
    obtain rfl := Except.ok.inj h
    exact absurd hj (List.not_mem_nil j)
  | cons j0 rest ih =>
    intro dl h j hj
    rw [downloadAndCleanIcons_cons] at h
    cases hj0 : download j0.nodeId with
    | none => rw [hj0] at h; exact absurd h (by simp)
    | some s =>
      rw [hj0] at h
      obtain ⟨dl0, hdl0, rfl⟩ := except_map_eq_ok h
      rcases List.mem_cons.mp hj with rfl | hj'
      · exact ⟨j0, List.mem_cons_self _ _, s, hj0, rfl⟩
      · obtain ⟨i, hi, s', hs', rfl⟩ := ih hdl0 j hj'
        exact ⟨i, List.mem_cons_of_mem _ hi, s', hs', rfl⟩

theorem downloadAndCleanIcons_ok_nodeIds {download : String → Option String} :
    ∀ {icons dl : List Icon},
      downloadAndCleanIcons download icons = Except.ok dl →
      dl.map Icon.nodeId = icons.map Icon.nodeId := by
  intro icons
  induction icons with
  | nil =>
    intro dl h
    rw [downloadAndCleanIcons_nil] at h
    obtain rfl := Except.ok.inj h
    rfl
  | cons j0 rest ih =>
    intro dl h
    rw [downloadAndCleanIcons_cons] at h
    cases hj0 : download j0.nodeId with
    | none => rw [hj0] at h; exact absurd h (by simp)
    | some s =>
      rw [hj0] at h
      obtain ⟨dl0, hdl0, rfl⟩ := except_map_eq_ok h
      simp only [List.map_cons]
      rw [ih hdl0]

theorem downloadAndCleanIcons_all_ok {download : String → Option String} :
    ∀ {icons : List Icon}, (∀ i ∈ icons, (download i.nodeId).isSome = true) →
      ∃ dl, downloadAndCleanIcons download icons = Except.ok dl := by
  intro icons
  induction icons with
  | nil => intro _; exact ⟨[], rfl⟩
  | cons j0 rest ih =>
    intro hall
    obtain ⟨s, hs⟩ := Option.isSome_iff_exists.mp
      (hall j0 (List.mem_cons_self _ _))
    obtain ⟨dl0, hdl0⟩ := ih (fun i hi => hall i (List.mem_cons_of_mem _ hi))
    refine ⟨{ j0 with svg := some s } :: dl0, ?_⟩
    rw [downloadAndCleanIcons_cons, hs, hdl0]
    rfl

theorem performMigrations_db_some {st0 : SyncState} {d : List StoredIcon}
    (h : st0.db = some d) : performMigrations st0 = st0 := by
  rcases st0 with ⟨icons, db, legacy⟩
  dsimp at h
  subst h
  rcases legacy with - | x
  · rfl
  · rcases x with - | -
    · rfl
    · rfl

theorem performMigrations_icons (st0 : SyncState) :
    (performMigrations st0).icons = st0.icons := by
  rcases st0 with ⟨icons, db, legacy⟩
  unfold performMigrations
  rcases legacy with - | x
  · rfl
  · rcases x with - | -
    · rcases db with - | - <;> rfl
    · rcases db with - | - <;> rfl

theorem runIconsContents_ok {remote : List RemoteIcon}
    {download : String → Option String} {fr : Bool} {st0 : SyncState}
    {icons : List Icon}
    (h : runIconsContents remote download fr st0 = Except.ok icons) :
    ∃ dl, downloadAndCleanIcons download (runDownloadList remote fr st0) =
        Except.ok dl ∧
      icons = initialContents (runChangelog remote fr st0)
        (performMigrations st0).icons ++ dl := by
  unfold runIconsContents at h
  obtain ⟨dl, hdl, hic⟩ := except_map_eq_ok h
  exact ⟨dl, hdl, hic⟩

theorem extractIcons_dl_error {remote : List RemoteIcon}
    {download : String → Option String} {fr : Bool} {st0 : SyncState}
    {e : JsError}
    (h : runIconsContents remote download fr st0 = Except.error e) :
    extractIcons remote download fr st0 =
      ⟨Except.error e, performMigrations st0, []⟩ := by
  unfold extractIcons
  rw [h]

/-- C5: a failed content fetch for any item in the download list aborts the
run as a thrown error before the resolution loop touches the filesystem
and before `updateLocalIconsDb` rewrites the inventory: the prior
inventory file and all icon files are left unchanged, and nothing is
printed. -/
theorem fetch_failure_preserves_inventory
    (remote : List RemoteIcon) (download : String → Option String) (fr : Bool)
    (st0 : SyncState) (d : List StoredIcon)
    (hdb : st0.db = some d)
    (hfail : ∃ i ∈ runDownloadList remote fr st0, download i.nodeId = none) :
    (extractIcons remote download fr st0).outcome =
        Except.error JsError.fetchFailed ∧
      (extractIcons remote download fr st0).state.db = some d ∧
      (extractIcons remote download fr st0).state.icons = st0.icons ∧
      (extractIcons remote download fr st0).warned = [] := by
  have hdl := downloadAndCleanIcons_fail hfail
  have hric : runIconsContents remote download fr st0 =
      Except.error JsError.fetchFailed := by
    unfold runIconsContents
    rw [hdl]
    rfl
  rw [extractIcons_dl_error hric, performMigrations_db_some hdb]
  exact ⟨rfl, hdb, rfl, rfl⟩

/-- Witness for C5: a run over the added-collision state whose only fetch
fails aborts with the fetch error and keeps the (empty) inventory. -/
theorem fetch_failure_preserves_inventory_witness :
    (extractIcons [⟨"X1", "alpha", "h"⟩] (fun _ => none) false
        addedCollisionState).outcome = Except.error JsError.fetchFailed ∧
    (extractIcons [⟨"X1", "alpha", "h"⟩] (fun _ => none) false
        addedCollisionState).state.db = some [] := by
  have h := fetch_failure_preserves_inventory [⟨"X1", "alpha", "h"⟩]
    (fun _ => none) false addedCollisionState [] rfl
    ⟨⟨"X1", "alpha", [], false, "h", none⟩, by decide, rfl⟩
  exact ⟨h.1, h.2.1⟩

/-- C9: persisting an inventory (stripping the transient `svg` and
`isRenamed` fields, as `extractIcons` does before `updateLocalIconsDb`)
and loading it back (`format`, as `consolidateChanges` does) reproduces
every record's `(nodeId, name, previousNames, hash)` tuple, and every
reloaded record has `isRenamed = false` and no contents. -/
theorem inventory_roundtrip (icons : List Icon) :
    (loadDb (icons.map stripIcon)).map
        (fun i => (i.nodeId, i.name, i.previousNames, i.hash)) =
      icons.map (fun i => (i.nodeId, i.name, i.previousNames, i.hash)) ∧
    ∀ j ∈ loadDb (icons.map stripIcon), j.isRenamed = false ∧ j.svg = none := by
  constructor
  · unfold loadDb
    rw [List.map_map, List.map_map]
    rfl
  · intro j hj
    unfold loadDb at hj
    rw [List.map_map] at hj
    obtain ⟨i, hi, rfl⟩ := List.mem_map.mp hj
    exact ⟨rfl, rfl⟩


theorem extractIcons_ok_parts {remote : List RemoteIcon}
    {download : String → Option String} {fr : Bool} {st0 : SyncState}
    (hok : (extractIcons remote download fr st0).outcome.isOk = true) :
    ∃ icons survivors,
      runIconsContents remote download fr st0 = Except.ok icons ∧
      (resolveLoop fr (runChangelog remote fr st0) icons
        (performMigrations st0).icons).outcome = Except.ok survivors ∧
      (extractIcons remote download fr st0).state.db =
        some (survivors.map stripIcon) ∧
      (extractIcons remote download fr st0).state.icons =
        (resolveLoop fr (runChangelog remote fr st0) icons
          (performMigrations st0).icons).fs ∧
      (extractIcons remote download fr st0).warned =
        (resolveLoop fr (runChangelog remote fr st0) icons
          (performMigrations st0).icons).warned := by
  cases hic : runIconsContents remote download fr st0 with
  | error e =>
    rw [extractIcons_dl_error hic] at hok
    simp [Except.isOk, Except.toBool] at hok
  | ok icons =>
    have hunf : extractIcons remote download fr st0 =
        (match (resolveLoop fr (runChangelog remote fr st0) icons
            (performMigrations st0).icons).outcome with
          | Except.error e =>
            ⟨Except.error e,
              { performMigrations st0 with
                  icons := (resolveLoop fr (runChangelog remote fr st0) icons
                    (performMigrations st0).icons).fs },
              (resolveLoop fr (runChangelog remote fr st0) icons
                (performMigrations st0).icons).warned⟩
          | Except.ok survivors =>
            ⟨Except.ok (mkOutput (runChangelog remote fr st0)
                (runDownloadList remote fr st0).length),
              { performMigrations st0 with
                  icons := (resolveLoop fr (runChangelog remote fr st0) icons
                    (performMigrations st0).icons).fs,
                  db := some (survivors.map stripIcon) },
              (resolveLoop fr (runChangelog remote fr st0) icons
                (performMigrations st0).icons).warned⟩) := by
      unfold extractIcons
      rw [hic]
    cases hL : (resolveLoop fr (runChangelog remote fr st0) icons
        (performMigrations st0).icons).outcome with
    | error e =>
      rw [hunf, hL] at hok
      simp [Except.isOk, Except.toBool] at hok
    | ok survivors =>
      rw [hunf, hL]
      exact ⟨icons, survivors, rfl, hL, rfl, rfl, rfl⟩


theorem consolidateChanges_force (remote : List RemoteIcon)
    (db : Option (List StoredIcon)) (fsE : String → Bool) :
    consolidateChanges remote db true fsE =
      { unmodified := [], modified := [], added := remote.map formatRemote,
        restored := [], removed := [] } := by
  cases db <;> rfl

theorem collision_force (fs : IconFS) (i : Icon) :
    collision true fs i = false := rfl

theorem updateFS_self (fs : IconFS) (n : String) (s : String) :
    (updateFS fs n s n).isSome = true := by
  simp [updateFS]

theorem updateFS_mono (fs : IconFS) (n : String) (s : String) (m : String)
    (h : (fs m).isSome = true) : (updateFS fs n s m).isSome = true := by
  unfold updateFS
  by_cases hm : m = n
  · simp [hm]
  · simp [hm, h]

theorem resolveLoop_all_added {ch : Changelog} :
    ∀ {icons : List Icon} {fs : IconFS},
      (∀ i ∈ icons, typeOf ch i.nodeId = some Category.added ∧
        ∃ s, i.svg = some s) →
      (resolveLoop true ch icons fs).outcome.isOk = true ∧
      (resolveLoop true ch icons fs).warned = [] ∧
      (∀ i ∈ icons, ((resolveLoop true ch icons fs).fs i.name).isSome = true) ∧
      (∀ n, (fs n).isSome = true →
        ((resolveLoop true ch icons fs).fs n).isSome = true) := by
  intro icons
  induction icons with
  | nil =>
    intro fs _
    rw [resolveLoop_nil]
    exact ⟨rfl, rfl, fun i hi => absurd hi (List.not_mem_nil i),
      fun n h => h⟩
  | cons j rest ih =>
    intro fs hall
    obtain ⟨hty, s, hsvg⟩ := hall j (List.mem_cons_self _ _)
    have hE : resolveIcon true (typeOf ch j.nodeId) fs j =
        (updateFS fs j.name s, [], Except.ok (some j)) := by
      rw [hty, resolveIcon_added_noncol rfl (collision_force fs j),
        saveStep_svg_some hsvg]
      rfl
    rw [resolveLoop_cons, hE]
    dsimp
    obtain ⟨hok, hw, hmem, hmono⟩ :=
      @ih (updateFS fs j.name s)
        (fun i hi => hall i (List.mem_cons_of_mem _ hi))
    refine ⟨?_, ?_, ?_, ?_⟩
    · cases ho : (resolveLoop true ch rest (updateFS fs j.name s)).outcome with
      | error e => rw [ho] at hok; simp [Except.isOk, Except.toBool] at hok
      | ok s2 => simp [ho, Except.map, Except.isOk, Except.toBool]
    · rw [hw]
    · intro i hi
      rcases List.mem_cons.mp hi with rfl | hi'
      · exact hmono i.name (updateFS_self fs i.name s)
      · exact hmem i hi'
    · intro n hn
      exact hmono n (updateFS_mono fs j.name s n hn)


theorem downloadAndCleanIcons_ok_names {download : String → Option String} :
    ∀ {icons dl : List Icon},
      downloadAndCleanIcons download icons = Except.ok dl →
      dl.map Icon.name = icons.map Icon.name := by
  intro icons
  induction icons with
  | nil =>
    intro dl h
    rw [downloadAndCleanIcons_nil] at h
    obtain rfl := Except.ok.inj h
    rfl
  | cons j0 rest ih =>
    intro dl h
    rw [downloadAndCleanIcons_cons] at h
    cases hj0 : download j0.nodeId with
    | none => rw [hj0] at h; exact absurd h (by simp)
    | some s =>
      rw [hj0] at h
      obtain ⟨dl0, hdl0, rfl⟩ := except_map_eq_ok h
      simp only [List.map_cons]
      rw [ih hdl0]

theorem extractIcons_run_eq {remote : List RemoteIcon}
    {download : String → Option String} {fr : Bool} {st0 : SyncState}
    {icons : List Icon}
    (hic : runIconsContents remote download fr st0 = Except.ok icons) :
    (extractIcons remote download fr st0).warned =
      (resolveLoop fr (runChangelog remote fr st0) icons
        (performMigrations st0).icons).warned ∧
    (extractIcons remote download fr st0).state.icons =
      (resolveLoop fr (runChangelog remote fr st0) icons
        (performMigrations st0).icons).fs ∧
    ((resolveLoop fr (runChangelog remote fr st0) icons
        (performMigrations st0).icons).outcome.isOk = true →
      (extractIcons remote download fr st0).outcome.isOk = true) := by
  have hunf : extractIcons remote download fr st0 =
      (match (resolveLoop fr (runChangelog remote fr st0) icons
          (performMigrations st0).icons).outcome with
        | Except.error e =>
          ⟨Except.error e,
            { performMigrations st0 with
                icons := (resolveLoop fr (runChangelog remote fr st0) icons
                  (performMigrations st0).icons).fs },
            (resolveLoop fr (runChangelog remote fr st0) icons
              (performMigrations st0).icons).warned⟩
        | Except.ok survivors =>
          ⟨Except.ok (mkOutput (runChangelog remote fr st0)
              (runDownloadList remote fr st0).length),
            { performMigrations st0 with
                icons := (resolveLoop fr (runChangelog remote fr st0) icons
                  (performMigrations st0).icons).fs,
                db := some (survivors.map stripIcon) },
            (resolveLoop fr (runChangelog remote fr st0) icons
              (performMigrations st0).icons).warned⟩) := by
    unfold extractIcons
    rw [hic]
  cases hL : (resolveLoop fr (runChangelog remote fr st0) icons
      (performMigrations st0).icons).outcome with
  | error e =>
    rw [hunf, hL]
    refine ⟨rfl, rfl, ?_⟩
    intro hcontra
    simp [Except.isOk, Except.toBool] at hcontra
  | ok survivors =>
    rw [hunf, hL]
    exact ⟨rfl, rfl, fun _ => rfl⟩

/-- C10: with `forceReload = true` the resolver's on-disk check is
constantly false, so neither collision branch can fire: provided every
fetch succeeds, the run completes, prints no advisory at all (in
particular no `unable-to-save` or `renamed-unable-to-save`), and every
fetched icon's file exists afterwards — even where a file with the same
name and different bytes was on disk before. -/
theorem force_reload_overwrites
    (remote : List RemoteIcon) (download : String → Option String)
    (st0 : SyncState)
    (hdl : ∀ r ∈ remote, (download r.nodeId).isSome = true) :
    (∀ (fs : IconFS) (i : Icon), collision true fs i = false) ∧
    (extractIcons remote download true st0).outcome.isOk = true ∧
    (extractIcons remote download true st0).warned = [] ∧
    ∀ r ∈ remote,
      ((extractIcons remote download true st0).state.icons r.name).isSome
        = true := by
  have hch : runChangelog remote true st0 =
      { unmodified := [], modified := [], added := remote.map formatRemote,
        restored := [], removed := [] } := by
    unfold runChangelog
    rw [consolidateChanges_force]
  have hdlist : runDownloadList remote true st0 = remote.map formatRemote := by
    unfold runDownloadList
    rw [hch]
    simp
  have hall : ∀ i ∈ remote.map formatRemote,
      (download i.nodeId).isSome = true := by
    rintro i hi
    obtain ⟨r, hr, rfl⟩ := List.mem_map.mp hi
    exact hdl r hr
  have hall2 : ∀ i ∈ runDownloadList remote true st0,
      (download i.nodeId).isSome = true := by
    rw [hdlist]
    exact hall
  obtain ⟨dl, hdlok⟩ := downloadAndCleanIcons_all_ok hall2
  have hinit : initialContents (runChangelog remote true st0)
      (performMigrations st0).icons = [] := by
    rw [hch]
    rfl
  have hric : runIconsContents remote download true st0 = Except.ok dl := by
    unfold runIconsContents
    rw [hdlok, hinit]
    rfl
  have hmem : ∀ i ∈ dl, typeOf (runChangelog remote true st0) i.nodeId =
      some Category.added ∧ ∃ s, i.svg = some s := by
    intro i hi
    obtain ⟨i0, hi0, s, hds, rfl⟩ := downloadAndCleanIcons_ok_mem hdlok i hi
    rw [hdlist] at hi0
    obtain ⟨r, hr, rfl⟩ := List.mem_map.mp hi0
    refine ⟨?_, s, rfl⟩
    rw [hch]
    unfold typeOf
    rw [if_neg (by simp), if_neg (by simp), if_pos ?hadd]
    case hadd =>
      rw [List.any_eq_true]
      exact ⟨formatRemote r, List.mem_map.mpr ⟨r, hr, rfl⟩, by simp⟩
  obtain ⟨hok, hw, hnames, -⟩ :=
    @resolveLoop_all_added (runChangelog remote true st0) dl
      (performMigrations st0).icons hmem
  obtain ⟨hw2, hfs2, himp⟩ := extractIcons_run_eq hric
  refine ⟨fun fs i => collision_force fs i, himp hok, ?_, ?_⟩
  · rw [hw2, hw]
  · intro r hr
    rw [hfs2]
    have hnm : r.name ∈ dl.map Icon.name := by
      rw [downloadAndCleanIcons_ok_names hdlok, hdlist, List.map_map]
      exact List.mem_map.mpr ⟨r, hr, rfl⟩
    obtain ⟨i, hi, hin⟩ := List.mem_map.mp hnm
    rw [← hin]
    exact hnames i hi

/-- Witness for C8: swapping two remote items leaves the `added` list a
permutation of the original. -/
theorem classification_permutation_invariant_witness :
    (catListOf (consolidateChanges [⟨"A", "a", "h"⟩, ⟨"B", "b", "h"⟩]
        (some []) false (fun _ => false)) Category.added).Perm
      (catListOf (consolidateChanges [⟨"B", "b", "h"⟩, ⟨"A", "a", "h"⟩]
        (some []) false (fun _ => false)) Category.added) :=
  (classification_permutation_invariant [⟨"A", "a", "h"⟩, ⟨"B", "b", "h"⟩]
    [⟨"B", "b", "h"⟩, ⟨"A", "a", "h"⟩] (some []) false (fun _ => false)
    (List.Perm.swap (⟨"B", "b", "h"⟩ : RemoteIcon) ⟨"A", "a", "h"⟩ [])).1
    Category.added

/-- Witness for C10: the forced added-collision run still writes
`alpha.svg` although a file with other bytes was there. -/
theorem force_reload_overwrites_witness :
    ((extractIcons [⟨"X1", "alpha", "h"⟩] addedCollisionDownload true
        addedCollisionState).state.icons "alpha").isSome = true :=
  (force_reload_overwrites [⟨"X1", "alpha", "h"⟩] addedCollisionDownload
    addedCollisionState (by decide)).2.2.2 ⟨"X1", "alpha", "h"⟩ (by decide)

theorem classifyIcon_fst_none {locals : List Icon} {fsE : String → Bool}
    {r : Icon}
    (hf : locals.find? (fun l' => l'.nodeId = r.nodeId) = none) :
    classifyIcon locals fsE r = (r, Category.added) := by
  unfold classifyIcon
  rw [hf]

theorem classifyIcon_fst_prev {locals : List Icon} {fsE : String → Bool}
    {r l : Icon}
    (hf : locals.find? (fun l' => l'.nodeId = r.nodeId) = some l) :
    (classifyIcon locals fsE r).1.previousNames =
      (if l.name = r.name then l.previousNames
       else if l.name ∈ l.previousNames then l.previousNames
       else l.previousNames ++ [l.name]) ∧
    (classifyIcon locals fsE r).1.isRenamed =
      (if l.name = r.name then false else true) ∧
    (classifyIcon locals fsE r).1.name = r.name := by
  unfold classifyIcon
  rw [hf]
  dsimp only
  split <;> split <;> exact ⟨rfl, rfl, rfl⟩

theorem categoryFor_ne_added (a b : Bool) : categoryFor a b ≠ Category.added := by
  unfold categoryFor
  cases a <;> cases b <;> simp

theorem classifyIcon_eq_added {locals : List Icon} {fsE : String → Bool}
    {r i : Icon}
    (h : classifyIcon locals fsE r = (i, Category.added)) : i = r := by
  cases hf : locals.find? (fun l' => l'.nodeId = r.nodeId) with
  | none =>
    rw [classifyIcon_fst_none hf] at h
    exact (Prod.mk.injEq .. ▸ h).1.symm
  | some l =>
    have hsnd := @classifyIcon_snd locals fsE r l hf
    rw [h] at hsnd
    exact absurd hsnd.symm (categoryFor_ne_added _ _)

theorem nodup_append_singleton {l : List String} {a : String}
    (hl : l.Nodup) (ha : a ∉ l) : (l ++ [a]).Nodup := by
  rw [List.nodup_append]
  refine ⟨hl, List.nodup_singleton a, ?_⟩
  intro b hb hba
  rw [List.mem_singleton] at hba
  exact ha (hba ▸ hb)

theorem classifyIcon_prev_nodup {locals : List Icon} {fsE : String → Bool}
    {r : Icon}
    (hloc : ∀ l ∈ locals, l.previousNames.Nodup)
    (hr : r.previousNames.Nodup) :
    (classifyIcon locals fsE r).1.previousNames.Nodup := by
  cases hf : locals.find? (fun l' => l'.nodeId = r.nodeId) with
  | none =>
    rw [classifyIcon_fst_none hf]
    exact hr
  | some l =>
    have hl := hloc l (List.mem_of_find?_eq_some hf)
    rw [(@classifyIcon_fst_prev locals fsE r l hf).1]
    by_cases hn : l.name = r.name
    · rw [if_pos hn]
      exact hl
    · rw [if_neg hn]
      by_cases hm : l.name ∈ l.previousNames
      · rw [if_pos hm]
        exact hl
      · rw [if_neg hm]
        exact nodup_append_singleton hl hm

theorem inCat_sub_remote {remote : List RemoteIcon} {stored : List StoredIcon}
    {fsE : String → Bool} {c : Category} (hc : c ≠ Category.removed)
    {nid : String}
    (h : inCat (mainBranch remote stored fsE) c nid = true) :
    nid ∈ remote.map RemoteIcon.nodeId := by
  rw [inCat_eq_any, List.any_eq_true] at h
  obtain ⟨i, hi, hn⟩ := h
  rw [decide_eq_true_eq] at hn
  rw [mem_mainBranch_cat hc] at hi
  obtain ⟨r, hr, hcl⟩ := hi
  have hnode := classifyIcon_nodeId (stored.map format) fsE (formatRemote r)
  rw [hcl] at hnode
  dsimp at hnode
  rw [← hn, hnode]
  exact List.mem_map.mpr ⟨r, hr, rfl⟩

theorem typeOf_eq_unmod {ch : Changelog} {nid : String}
    (h : inCat ch Category.unmodified nid = true) :
    typeOf ch nid = some Category.unmodified := by
  unfold typeOf
  rw [if_pos (by exact h)]

theorem typeOf_added_inv {ch : Changelog} {nid : String}
    (h : typeOf ch nid = some Category.added) :
    inCat ch Category.unmodified nid = false ∧
    inCat ch Category.modified nid = false ∧
    inCat ch Category.added nid = true := by
  unfold typeOf at h
  by_cases h1 : ch.unmodified.any (fun i => i.nodeId = nid)
  · rw [if_pos h1] at h
    simp at h
  · rw [if_neg h1] at h
    by_cases h2 : ch.modified.any (fun i => i.nodeId = nid)
    · rw [if_pos h2] at h
      simp at h
    · rw [if_neg h2] at h
      by_cases h3 : ch.added.any (fun i => i.nodeId = nid)
      · exact ⟨Bool.eq_false_iff.mpr h1, Bool.eq_false_iff.mpr h2, h3⟩
      · rw [if_neg h3] at h
        by_cases h4 : ch.restored.any (fun i => i.nodeId = nid)
        · rw [if_pos h4] at h
          simp at h
        · rw [if_neg h4] at h
          by_cases h5 : ch.removed.any (fun i => i.nodeId = nid)
          · rw [if_pos h5] at h
            simp at h
          · rw [if_neg h5] at h
            simp at h


theorem restored_not_added {remote : List RemoteIcon} {stored : List StoredIcon}
    {fsE : String → Bool}
    (hnd : (remote.map RemoteIcon.nodeId).Nodup) {i : Icon}
    (hi : i ∈ catListOf (mainBranch remote stored fsE) Category.restored) :
    inCat (mainBranch remote stored fsE) Category.added i.nodeId = false := by
  by_contra hadd
  rw [Bool.not_eq_false, inCat_eq_any, List.any_eq_true] at hadd
  obtain ⟨ia, hia, hnid⟩ := hadd
  rw [decide_eq_true_eq] at hnid
  rw [mem_mainBranch_cat (by decide)] at hia
  rw [mem_mainBranch_cat (by decide)] at hi
  obtain ⟨r1, hr1, hcl1⟩ := hia
  obtain ⟨r0, hr0, hcl0⟩ := hi
  have hn1 := classifyIcon_nodeId (stored.map format) fsE (formatRemote r1)
  rw [hcl1] at hn1
  have hn0 := classifyIcon_nodeId (stored.map format) fsE (formatRemote r0)
  rw [hcl0] at hn0
  simp only [formatRemote] at hn1 hn0
  have heq : r1.nodeId = r0.nodeId := by
    rw [← hn1, hnid, hn0]
  have hrr := List.inj_on_of_nodup_map hnd hr1 hr0 heq
  subst hrr
  rw [hcl0] at hcl1
  exact absurd hcl1 (by simp)

theorem consolidateChanges_db_none (remote : List RemoteIcon) (force : Bool)
    (fsE : String → Bool) :
    consolidateChanges remote none force fsE =
      { unmodified := [], modified := [], added := remote.map formatRemote,
        restored := [], removed := [] } := by
  cases force <;> rfl

theorem runChangelog_main {remote : List RemoteIcon} {st0 : SyncState}
    {stored : List StoredIcon}
    (hdbv : (performMigrations st0).db = some stored) :
    runChangelog remote false st0 =
      mainBranch remote stored
        (fun n => ((performMigrations st0).icons n).isSome) := by
  unfold runChangelog
  dsimp only
  rw [hdbv]
  rfl

theorem runContents_inv {remote : List RemoteIcon}
    {download : String → Option String} {fr : Bool} {st0 : SyncState}
    {icons : List Icon}
    (hstored : ∀ l, (performMigrations st0).db = some l →
      ∀ s ∈ l, StoredInvariant s)
    (hnd : (remote.map RemoteIcon.nodeId).Nodup)
    (h : runIconsContents remote download fr st0 = Except.ok icons) :
    ∀ i ∈ icons, i.previousNames.Nodup ∧
      (typeOf (runChangelog remote fr st0) i.nodeId = some Category.added →
        i.name ∉ i.previousNames) := by
  obtain ⟨dl, hdl, rfl⟩ := runIconsContents_ok h
  by_cases hmain : ∃ stored, (performMigrations st0).db = some stored ∧ fr = false
  · -- inventory present, no force: the interesting branch
    obtain ⟨stored, hdbv, rfl⟩ := hmain
    have hch := @runChangelog_main remote st0 stored hdbv
    set fsE : String → Bool :=
      fun n => ((performMigrations st0).icons n).isSome with hfsE
    have hloc : ∀ l ∈ stored.map format, l.previousNames.Nodup := by
      rintro l hl
      obtain ⟨s, hs, rfl⟩ := List.mem_map.mp hl
      exact (hstored stored hdbv s hs).2
    intro i hi
    rcases List.mem_append.mp hi with hinit | hdlm
    · -- unmodified/removed icons with their on-disk bytes
      unfold initialContents at hinit
      obtain ⟨j, hj, hij⟩ := List.mem_map.mp hinit
      have hprev : i.previousNames = j.previousNames := by rw [← hij]
      have hnid : i.nodeId = j.nodeId := by rw [← hij]
      have hname : i.name = j.name := by rw [← hij]
      have hj' : j ∈ (mainBranch remote stored fsE).unmodified ++
          (mainBranch remote stored fsE).removed := by
        rw [← hch]
        exact hj
      rcases List.mem_append.mp hj' with hju | hjr
      · -- j unmodified
        have hju' : j ∈ catListOf (mainBranch remote stored fsE)
            Category.unmodified := hju
        rw [mem_mainBranch_cat (by decide)] at hju'
        obtain ⟨r, hr, hcl⟩ := hju'
        constructor
        · rw [hprev]
          have hnodup := @classifyIcon_prev_nodup (stored.map format) fsE
            (formatRemote r) hloc (by simp [formatRemote])
          rw [hcl] at hnodup
          exact hnodup
        · intro hty
          obtain ⟨hu, -, -⟩ := typeOf_added_inv hty
          rw [hch, hnid] at hu
          have htrue : inCat (mainBranch remote stored fsE)
              Category.unmodified j.nodeId = true := by
            rw [inCat_eq_any, List.any_eq_true]
            exact ⟨j, hju, by simp⟩
          rw [htrue] at hu
          exact absurd hu (by simp)
      · -- j removed
        rw [mem_mainBranch_removed] at hjr
        obtain ⟨hjm, hne, -⟩ := hjr
        obtain ⟨s, hs, hjs⟩ := List.mem_map.mp hjm
        constructor
        · rw [hprev, ← hjs]
          exact (hstored stored hdbv s hs).2
        · intro hty
          obtain ⟨-, -, hadd⟩ := typeOf_added_inv hty
          rw [hch, hnid] at hadd
          have hsub := inCat_sub_remote (by decide) hadd
          obtain ⟨r, hr, hrn⟩ := List.mem_map.mp hsub
          exact absurd hrn (hne r hr)
    · -- downloaded icons
      obtain ⟨i0, hi0, s0, -, hieq⟩ := downloadAndCleanIcons_ok_mem hdl i hdlm
      have hprev : i.previousNames = i0.previousNames := by rw [hieq]
      have hnid : i.nodeId = i0.nodeId := by rw [hieq]
      have hname : i.name = i0.name := by rw [hieq]
      have hi0' : i0 ∈ (mainBranch remote stored fsE).added ++
          ((mainBranch remote stored fsE).modified ++
            (mainBranch remote stored fsE).restored) := by
        have hdle : runDownloadList remote false st0 =
            (mainBranch remote stored fsE).added ++
              ((mainBranch remote stored fsE).modified ++
                (mainBranch remote stored fsE).restored) := by
          unfold runDownloadList
          rw [hch, List.append_assoc]
        rw [← hdle]
        exact hi0
      rcases List.mem_append.mp hi0' with hadd | hmr
      · -- added: previousNames is empty
        have hadd' : i0 ∈ catListOf (mainBranch remote stored fsE)
            Category.added := hadd
        rw [mem_mainBranch_cat (by decide)] at hadd'
        obtain ⟨r, hr, hcl⟩ := hadd'
        have hi0f : i0 = formatRemote r := classifyIcon_eq_added hcl
        rw [hprev, hi0f]
        simp [formatRemote]
      · rcases List.mem_append.mp hmr with hmod | hres
        · -- modified
          have hmod' : i0 ∈ catListOf (mainBranch remote stored fsE)
              Category.modified := hmod
          rw [mem_mainBranch_cat (by decide)] at hmod'
          obtain ⟨r, hr, hcl⟩ := hmod'
          constructor
          · rw [hprev]
            have hnodup := @classifyIcon_prev_nodup (stored.map format) fsE
              (formatRemote r) hloc (by simp [formatRemote])
            rw [hcl] at hnodup
            exact hnodup
          · intro hty
            obtain ⟨-, hm, -⟩ := typeOf_added_inv hty
            rw [hch, hnid] at hm
            have htrue : inCat (mainBranch remote stored fsE)
                Category.modified i0.nodeId = true := by
              rw [inCat_eq_any, List.any_eq_true]
              exact ⟨i0, hmod, by simp⟩
            rw [htrue] at hm
            exact absurd hm (by simp)
        · -- restored
          have hres' : i0 ∈ catListOf (mainBranch remote stored fsE)
              Category.restored := hres
          rw [mem_mainBranch_cat (by decide)] at hres'
          obtain ⟨r, hr, hcl⟩ := hres'
          constructor
          · rw [hprev]
            have hnodup := @classifyIcon_prev_nodup (stored.map format) fsE
              (formatRemote r) hloc (by simp [formatRemote])
            rw [hcl] at hnodup
            exact hnodup
          · intro hty
            obtain ⟨-, -, hadd2⟩ := typeOf_added_inv hty
            rw [hch, hnid] at hadd2
            have hfalse := @restored_not_added remote stored fsE hnd i0 hres
            rw [hfalse] at hadd2
            exact absurd hadd2 (by simp)
  · -- no inventory or forced: everything is added with empty history
    have hch : runChangelog remote fr st0 =
        { unmodified := [], modified := [], added := remote.map formatRemote,
          restored := [], removed := [] } := by
      cases hfr : fr with
      | true =>
        unfold runChangelog
        dsimp only
        rw [consolidateChanges_force]
      | false =>
        cases hdbv : (performMigrations st0).db with
        | none =>
          unfold runChangelog
          dsimp only
          rw [hdbv, consolidateChanges_db_none]
        | some stored => exact absurd ⟨stored, hdbv, by rw [hfr]⟩ hmain
    have hinit : initialContents (runChangelog remote fr st0)
        (performMigrations st0).icons = [] := by
      rw [hch]
      rfl
    intro i hi
    rw [hinit, List.nil_append] at hi
    obtain ⟨i0, hi0, s0, -, hieq⟩ := downloadAndCleanIcons_ok_mem hdl i hi
    have hprev : i.previousNames = i0.previousNames := by rw [hieq]
    have hi0' : i0 ∈ remote.map formatRemote := by
      have hdle : runDownloadList remote fr st0 = remote.map formatRemote := by
        unfold runDownloadList
        rw [hch]
        simp
      rw [← hdle]
      exact hi0
    obtain ⟨r, hr, hri⟩ := List.mem_map.mp hi0'
    rw [hprev, ← hri]
    simp [formatRemote]


/-- C6: the persisted-record invariant — `previousNames` never contains
the current `name` and has no duplicates — holds for every record of the
inventory a completed run writes, provided the inventory it started from
satisfied it; classification's history append, the rename-revert
filtering and the stale-name pruning each preserve it. -/
theorem persisted_inventory_invariant
    (remote : List RemoteIcon) (download : String → Option String) (fr : Bool)
    (st0 : SyncState) (db' : List StoredIcon)
    (hstored : ∀ l, (performMigrations st0).db = some l →
      ∀ s ∈ l, StoredInvariant s)
    (hnd : (remote.map RemoteIcon.nodeId).Nodup)
    (hok : (extractIcons remote download fr st0).outcome.isOk = true)
    (hdb : (extractIcons remote download fr st0).state.db = some db') :
    ∀ s ∈ db', StoredInvariant s := by
  obtain ⟨icons, survivors, hic, hloop, hdb2, -, -⟩ := extractIcons_ok_parts hok
  rw [hdb] at hdb2
  obtain rfl : db' = survivors.map stripIcon := Option.some.inj hdb2
  intro s hs
  obtain ⟨k, hk, rfl⟩ := List.mem_map.mp hs
  have hinv := resolveLoop_keep_inv hloop (runContents_inv hstored hnd hic) k hk
  exact ⟨hinv.1, hinv.2⟩

/-- Witness for C6: the record persisted by a plain run over the
force-drop state satisfies the invariant. -/
theorem persisted_inventory_invariant_witness :
    StoredInvariant ⟨"N1", "logo", [], "h"⟩ := by
  refine persisted_inventory_invariant [] (fun _ => none) false forceDropState
    [⟨"N1", "logo", [], "h"⟩] ?_ (by decide) rfl rfl
    ⟨"N1", "logo", [], "h"⟩ (by decide)
  intro l hl s hs
  obtain rfl : [(⟨"N1", "logo", [], "h"⟩ : StoredIcon)] = l :=
    Option.some.inj hl
  rw [List.mem_singleton] at hs
  subst hs
  exact ⟨by decide, List.nodup_nil⟩

theorem map_stripIcon_nodeId (l : List Icon) :
    (l.map stripIcon).map StoredIcon.nodeId = l.map Icon.nodeId := by
  rw [List.map_map]
  rfl

theorem initialContents_nodeIds (ch : Changelog) (fs : IconFS) :
    (initialContents ch fs).map Icon.nodeId =
      (ch.unmodified ++ ch.removed).map Icon.nodeId := by
  unfold initialContents
  rw [List.map_map]
  rfl

/-- C7 (amended with `forceReload = false`): a local record with no
matching remote item appears in `removed` — and survives into the
persisted inventory of a completed run — exactly when its file still
exists on disk; otherwise it is silently dropped from both. -/
theorem removed_record_filtering
    (remote : List RemoteIcon) (download : String → Option String)
    (st0 : SyncState) (stored : List StoredIcon) (l : StoredIcon)
    (hdbv : (performMigrations st0).db = some stored)
    (hl : l ∈ stored)
    (hndstored : (stored.map StoredIcon.nodeId).Nodup)
    (habs : ∀ r ∈ remote, r.nodeId ≠ l.nodeId) :
    (st0.icons l.name = none →
      inCat (runChangelog remote false st0) Category.removed l.nodeId = false ∧
      ∀ db', (extractIcons remote download false st0).outcome.isOk = true →
        (extractIcons remote download false st0).state.db = some db' →
        l.nodeId ∉ db'.map StoredIcon.nodeId) ∧
    (∀ c, st0.icons l.name = some c →
      inCat (runChangelog remote false st0) Category.removed l.nodeId = true ∧
      ∀ db', (extractIcons remote download false st0).outcome.isOk = true →
        (extractIcons remote download false st0).state.db = some db' →
        l.nodeId ∈ db'.map StoredIcon.nodeId) := by
  have hch := @runChangelog_main remote st0 stored hdbv
  set fsE : String → Bool :=
    fun n => ((performMigrations st0).icons n).isSome with hfsE
  have hfsl : fsE l.name = (st0.icons l.name).isSome := by
    rw [hfsE]
    rw [performMigrations_icons]
  -- no category list other than removed can mention l.nodeId
  have hnotcat : ∀ c, c ≠ Category.removed →
      inCat (mainBranch remote stored fsE) c l.nodeId = false := by
    intro c hc
    by_contra hx
    rw [Bool.not_eq_false] at hx
    have hsub := inCat_sub_remote hc hx
    obtain ⟨r, hr, hrn⟩ := List.mem_map.mp hsub
    exact absurd hrn (habs r hr)
  constructor
  · -- file missing: dropped everywhere
    intro hnone
    have hfsEl : fsE l.name = false := by
      rw [hfsl, hnone]
      rfl
    have hrm : inCat (mainBranch remote stored fsE) Category.removed l.nodeId
        = false := by
      by_contra hx
      rw [Bool.not_eq_false, inCat_eq_any, List.any_eq_true] at hx
      obtain ⟨i, hi, hni⟩ := hx
      rw [decide_eq_true_eq] at hni
      have hi' : i ∈ (mainBranch remote stored fsE).removed := hi
      rw [mem_mainBranch_removed] at hi'
      obtain ⟨him, -, hif⟩ := hi'
      obtain ⟨s, hs, hsi⟩ := List.mem_map.mp him
      have hsn : s.nodeId = l.nodeId := by
        rw [show s.nodeId = i.nodeId from by rw [← hsi]; rfl, hni]
      have hsl : s = l := List.inj_on_of_nodup_map hndstored hs hl hsn
      subst hsl
      rw [show i.name = s.name from by rw [← hsi]; rfl, hfsEl] at hif
      exact absurd hif (by simp)
    refine ⟨by rw [hch]; exact hrm, ?_⟩
    intro db' hok hdb
    obtain ⟨icons, survivors, hic, hloop, hdb2, -, -⟩ :=
      extractIcons_ok_parts hok
    rw [hdb] at hdb2
    obtain rfl : db' = survivors.map stripIcon := Option.some.inj hdb2
    rw [map_stripIcon_nodeId]
    intro hmem
    have hsubl := resolveLoop_ok_sublist hloop
    have hmem2 : l.nodeId ∈ icons.map Icon.nodeId :=
      hsubl.subset hmem
    obtain ⟨dl, hdlo, rfl⟩ := runIconsContents_ok hic
    rw [List.map_append, initialContents_nodeIds] at hmem2
    rcases List.mem_append.mp hmem2 with hin | hin
    · rw [List.map_append] at hin
      rcases List.mem_append.mp hin with hin2 | hin2
      · obtain ⟨j, hj, hjn⟩ := List.mem_map.mp hin2
        have : inCat (mainBranch remote stored fsE) Category.unmodified
            l.nodeId = true := by
          rw [inCat_eq_any, List.any_eq_true]
          rw [hch] at hj
          exact ⟨j, hj, by simp [hjn]⟩
        exact absurd this (by rw [hnotcat Category.unmodified (by decide)]; simp)
      · obtain ⟨j, hj, hjn⟩ := List.mem_map.mp hin2
        have : inCat (mainBranch remote stored fsE) Category.removed
            l.nodeId = true := by
          rw [inCat_eq_any, List.any_eq_true]
          rw [hch] at hj
          exact ⟨j, hj, by simp [hjn]⟩
        rw [this] at hrm
        exact absurd hrm (by simp)
    · rw [downloadAndCleanIcons_ok_nodeIds hdlo] at hin
      have hdle : runDownloadList remote false st0 =
          (mainBranch remote stored fsE).added ++
            ((mainBranch remote stored fsE).modified ++
              (mainBranch remote stored fsE).restored) := by
        unfold runDownloadList
        rw [hch, List.append_assoc]
      rw [hdle, List.map_append, List.map_append] at hin
      have hcat : ∀ cl : List Icon, (∀ x ∈ cl,
          x ∈ (mainBranch remote stored fsE).added ∨
          x ∈ (mainBranch remote stored fsE).modified ∨
          x ∈ (mainBranch remote stored fsE).restored) →
          l.nodeId ∈ cl.map Icon.nodeId → False := by
        intro cl hcl hmm
        obtain ⟨j, hj, hjn⟩ := List.mem_map.mp hmm
        rcases hcl j hj with hj2 | hj2 | hj2
        · have : inCat (mainBranch remote stored fsE) Category.added
              l.nodeId = true := by
            rw [inCat_eq_any, List.any_eq_true]
            exact ⟨j, hj2, by simp [hjn]⟩
          exact absurd this
            (by rw [hnotcat Category.added (by decide)]; simp)
        · have : inCat (mainBranch remote stored fsE) Category.modified
              l.nodeId = true := by
            rw [inCat_eq_any, List.any_eq_true]
            exact ⟨j, hj2, by simp [hjn]⟩
          exact absurd this
            (by rw [hnotcat Category.modified (by decide)]; simp)
        · have : inCat (mainBranch remote stored fsE) Category.restored
              l.nodeId = true := by
            rw [inCat_eq_any, List.any_eq_true]
            exact ⟨j, hj2, by simp [hjn]⟩
          exact absurd this
            (by rw [hnotcat Category.restored (by decide)]; simp)
      rcases List.mem_append.mp hin with hin2 | hin2
      · exact hcat _ (fun x hx => Or.inl hx) hin2
      · rcases List.mem_append.mp hin2 with hin3 | hin3
        · exact hcat _ (fun x hx => Or.inr (Or.inl hx)) hin3
        · exact hcat _ (fun x hx => Or.inr (Or.inr hx)) hin3
  · -- file exists: in removed and retained
    intro c hsome
    have hfsEl : fsE l.name = true := by
      rw [hfsl, hsome]
      rfl
    have hlmem : format l ∈ (mainBranch remote stored fsE).removed := by
      rw [mem_mainBranch_removed]
      exact ⟨List.mem_map.mpr ⟨l, hl, rfl⟩, fun r hr => habs r hr, hfsEl⟩
    have hrm : inCat (mainBranch remote stored fsE) Category.removed l.nodeId
        = true := by
      rw [inCat_eq_any, List.any_eq_true]
      exact ⟨format l, hlmem, by simp [format]⟩
    refine ⟨by rw [hch]; exact hrm, ?_⟩
    intro db' hok hdb
    obtain ⟨icons, survivors, hic, hloop, hdb2, -, -⟩ :=
      extractIcons_ok_parts hok
    rw [hdb] at hdb2
    obtain rfl : db' = survivors.map stripIcon := Option.some.inj hdb2
    rw [map_stripIcon_nodeId]
    obtain ⟨dl, hdlo, rfl⟩ := runIconsContents_ok hic
    -- the removed record (with its on-disk bytes) enters the loop
    have hin : withLoadedSvg (performMigrations st0).icons (format l) ∈
        initialContents (runChangelog remote false st0)
          (performMigrations st0).icons ++ dl := by
      apply List.mem_append_left
      unfold initialContents
      apply List.mem_map.mpr
      refine ⟨format l, ?_, rfl⟩
      apply List.mem_append_right
      rw [hch]
      exact hlmem
    have hnotadded : ¬typeOf (runChangelog remote false st0)
        (withLoadedSvg (performMigrations st0).icons (format l)).nodeId =
        some Category.added := by
      intro hty
      obtain ⟨-, -, hadd⟩ := typeOf_added_inv hty
      rw [hch] at hadd
      rw [show (withLoadedSvg (performMigrations st0).icons
        (format l)).nodeId = l.nodeId from rfl] at hadd
      exact absurd hadd
        (by rw [hnotcat Category.added (by decide)]; simp)
    have := resolveLoop_ok_mem hloop _ hin hnotadded
    exact this
  

/-- C4 (amended with `forceReload = false`): an `added` item whose target
file exists at resolution time with bytes differing from the fetched ones
is dropped — its step writes nothing, prints `unable-to-save` (also
visible in the completed run's advisory trace), and its record is absent
from the inventory a completed run persists; an `added` item without such
a collision is saved under its name. -/
theorem added_collision_dropped
    (remote : List RemoteIcon) (download : String → Option String)
    (st0 : SyncState) (pre post : List Icon) (i : Icon) (c : String)
    (s1 : List Icon)
    (hicons : runIconsContents remote download false st0 =
      Except.ok (pre ++ i :: post))
    (hty : typeOf (runChangelog remote false st0) i.nodeId =
      some Category.added)
    (hpre : (resolveLoop false (runChangelog remote false st0) pre
      (performMigrations st0).icons).outcome = Except.ok s1)
    (hfile : (resolveLoop false (runChangelog remote false st0) pre
      (performMigrations st0).icons).fs i.name = some c)
    (hdiff : svgDiffers c i.svg = true)
    (hnd : ((pre ++ i :: post).map Icon.nodeId).Nodup) :
    resolveIcon false (typeOf (runChangelog remote false st0) i.nodeId)
        (resolveLoop false (runChangelog remote false st0) pre
          (performMigrations st0).icons).fs i =
      ((resolveLoop false (runChangelog remote false st0) pre
          (performMigrations st0).icons).fs,
        [WarnEvent.unableToSave i.name], Except.ok none) ∧
    (∀ db', (extractIcons remote download false st0).outcome.isOk = true →
      (extractIcons remote download false st0).state.db = some db' →
      i.nodeId ∉ db'.map StoredIcon.nodeId) ∧
    ((extractIcons remote download false st0).outcome.isOk = true →
      WarnEvent.unableToSave i.name ∈
        (extractIcons remote download false st0).warned) ∧
    (∀ (fs : IconFS) (j : Icon) (s : String),
      collision false fs j = false → j.svg = some s →
      resolveIcon false (some Category.added) fs j =
        (updateFS fs j.name s, [], Except.ok (some j))) := by
  have hcol : collision false
      (resolveLoop false (runChangelog remote false st0) pre
        (performMigrations st0).icons).fs i = true := by
    unfold collision
    rw [if_neg (by simp), hfile]
    exact hdiff
  have hstep : resolveIcon false
      (typeOf (runChangelog remote false st0) i.nodeId)
      (resolveLoop false (runChangelog remote false st0) pre
        (performMigrations st0).icons).fs i =
      ((resolveLoop false (runChangelog remote false st0) pre
          (performMigrations st0).icons).fs,
        [WarnEvent.unableToSave i.name], Except.ok none) := by
    rw [hty]
    exact resolveIcon_added_col rfl hcol
  have hB : resolveLoop false (runChangelog remote false st0) (i :: post)
      (resolveLoop false (runChangelog remote false st0) pre
        (performMigrations st0).icons).fs =
      ⟨(resolveLoop false (runChangelog remote false st0) post
          (resolveLoop false (runChangelog remote false st0) pre
            (performMigrations st0).icons).fs).fs,
        [WarnEvent.unableToSave i.name] ++
          (resolveLoop false (runChangelog remote false st0) post
            (resolveLoop false (runChangelog remote false st0) pre
              (performMigrations st0).icons).fs).warned,
        (resolveLoop false (runChangelog remote false st0) post
          (resolveLoop false (runChangelog remote false st0) pre
            (performMigrations st0).icons).fs).outcome.map
          (fun s => [] ++ s)⟩ := by
    rw [resolveLoop_cons, hstep]
    rfl
  have happ := resolveLoop_append_ok pre (i :: post)
    (performMigrations st0).icons s1 hpre
  refine ⟨hstep, ?_, ?_, ?_⟩
  · -- absence from the persisted inventory
    intro db' hok hdb
    obtain ⟨icons, survivors, hic, hloop, hdb2, -, -⟩ :=
      extractIcons_ok_parts hok
    rw [hicons] at hic
    obtain rfl : pre ++ i :: post = icons := Except.ok.inj hic
    rw [hdb] at hdb2
    obtain rfl : db' = survivors.map stripIcon := Option.some.inj hdb2
    rw [happ, hB] at hloop
    dsimp at hloop
    rw [except_map_map] at hloop
    obtain ⟨s2, hs2, hsv⟩ := except_map_eq_ok hloop
    rw [map_stripIcon_nodeId, hsv]
    -- split the nodup hypothesis
    rw [List.map_append, List.map_cons] at hnd
    have hdisj := List.disjoint_of_nodup_append hnd
    have hnd2 := List.Nodup.of_append_right hnd
    rw [List.nodup_cons] at hnd2
    intro hmem
    simp only [List.map_append, List.nil_append] at hmem
    rcases List.mem_append.mp hmem with hm1 | hm2
    · have hm1b := (resolveLoop_ok_sublist hpre).subset hm1
      exact hdisj hm1b (List.mem_cons_self _ _)
    · have hm2b := (resolveLoop_ok_sublist hs2).subset hm2
      exact hnd2.1 hm2b
  · -- the advisory is in the completed run's trace
    intro hok
    obtain ⟨icons, survivors, hic, hloop, -, -, hw⟩ :=
      extractIcons_ok_parts hok
    rw [hicons] at hic
    obtain rfl : pre ++ i :: post = icons := Except.ok.inj hic
    rw [hw, happ, hB]
    dsimp
    apply List.mem_append_right
    exact List.mem_append_left _ (List.mem_singleton_self _)
  · -- no collision: the added icon is saved under its name
    intro fs j s hc hs
    rw [resolveIcon_added_noncol rfl hc, saveStep_svg_some hs]
    rfl


/-- Witness for C4: the concrete added-collision step leaves the
filesystem untouched, prints `unable-to-save` and drops the icon. -/
theorem added_collision_dropped_witness :
    resolveIcon false (some Category.added) addedCollisionState.icons
        ⟨"X1", "alpha", [], false, "h", some "FRESH"⟩ =
      (addedCollisionState.icons, [WarnEvent.unableToSave "alpha"],
        Except.ok none) := by
  have h := added_collision_dropped [⟨"X1", "alpha", "h"⟩]
    addedCollisionDownload addedCollisionState [] []
    ⟨"X1", "alpha", [], false, "h", some "FRESH"⟩ "OTHER" [] rfl rfl rfl rfl
    (by decide) (by decide)
  exact h.1

/-- Witness for C7: in a plain (non-forced) run over the force-drop
state, the unmatched record with an existing file is classified `removed`
and survives into the persisted inventory. -/
theorem removed_record_filtering_witness :
    inCat (runChangelog [] false forceDropState) Category.removed "N1" = true ∧
    "N1" ∈ ([(⟨"N1", "logo", [], "h"⟩ : StoredIcon)].map StoredIcon.nodeId) := by
  have h := (removed_record_filtering [] (fun _ => none) forceDropState
    [⟨"N1", "logo", [], "h"⟩] ⟨"N1", "logo", [], "h"⟩ rfl (by decide)
    (by decide) (by decide)).2 "L" rfl
  exact ⟨h.1, h.2 [⟨"N1", "logo", [], "h"⟩] rfl rfl⟩

end IconsSync
